import Mathlib

/-!
Verification of `diagram`: caption parsing, grid overlay, caption placement and
cropping.

A shallow embedding of `main.go` of the `diagram` program.

Conventions of the embedding.

* A Go `string` is a `List Char` (`GoString`).
* A Go `int` is an `Int`.  `strconv.Atoi` keeps its 64-bit range check, because
  it decides whether a field "parses as an integer".  Pixel arithmetic
  (`x - lw/2`, `h += hsize`, ...) is carried out in `Int`; `/` is `Int.tdiv`.
* A Go `panic` is the outcome `Run.panicked`; a loop that may run for ever takes
  a fuel argument and yields `none` when the fuel is used up.
* `ParseCaptions` is given the lines that `bufio.Scanner` delivers for the
  caption file; opening the file is not part of the model.
* An `image.NRGBA` is its bounds together with the colour of every point.
* The collaborators that are not part of the repository (the text renderer
  started by `Label`, the compositor `draw.Draw`, the floating point square
  root) are the fields of an environment `Env`.
* The library functions `strconv.Atoi`, `strings.Fields`, `strings.Split`,
  `regexp.ReplaceAllString`, `image.Rect`, `Rectangle.Intersect`, `SubImage`,
  `At` and `Set` are written out after their Go definitions.
-/

set_option autoImplicit false

namespace Diagram

/-! ## Go strings and the library functions used by the parser -/

/-- Go `string`, as its sequence of characters. -/
abbrev GoString := List Char

/-- Outcome of a Go call that either returns a value or panics. -/
inductive Run (α : Type) where
  | ret (a : α) : Run α
  | panicked : Run α
deriving DecidableEq, Repr

/-- The two kinds of error carried by `*strconv.NumError`: `ErrRange` and the
error for malformed text. -/
inductive NumError where
  | errRange : NumError
  | errInvalid : NumError
deriving DecidableEq, Repr

/-- ASCII decimal digit, the only characters `strconv` and the class `\d` accept. -/
def isDigit (c : Char) : Bool := decide (48 ≤ c.toNat) && decide (c.toNat ≤ 57)

/-- Value of a decimal digit (`c - '0'`). -/
def digitVal (c : Char) : Nat := c.toNat - 48

/-- Largest `uint64`. -/
def maxUint64 : Nat := 2 ^ 64 - 1

/-- Digit loop of `strconv.ParseUint(s, 10, 64)`: the characters are read left
to right; the first character that is not a digit is an invalid-text error, and
an overflow of `uint64` stops the scan with the value `maxUint64` and a range
error. -/
def parseUintLoop : List Char → Nat → Nat × Option NumError
  | [], n => (n, none)
  | c :: cs, n =>
    if isDigit c then
      if maxUint64 / 10 + 1 ≤ n then (maxUint64, some NumError.errRange)
      else
        let n1 := n * 10 + digitVal c
        if maxUint64 < n1 then (maxUint64, some NumError.errRange)
        else parseUintLoop cs n1
    else (0, some NumError.errInvalid)

/-- Unsigned part of `strconv.ParseInt`: the empty digit string is invalid. -/
def ParseUint (s : GoString) : Nat × Option NumError :=
  match s with
  | [] => (0, some NumError.errInvalid)
  | _ => parseUintLoop s 0

/-- Signed stage of `strconv.ParseInt(s, 10, 0)` on the result `(un, err)` of
`ParseUint`; `cutoff = 2^63`. -/
def parseIntFinish (neg : Bool) (r : Nat × Option NumError) : Int × Option NumError :=
  match r with
  | (_, some NumError.errInvalid) => (0, some NumError.errInvalid)
  | (un, _) =>
    if !neg && decide (2 ^ 63 ≤ un) then ((2 : Int) ^ 63 - 1, some NumError.errRange)
    else if neg && decide (2 ^ 63 < un) then (-(2 : Int) ^ 63, some NumError.errRange)
    else if neg then (-(un : Int), none) else ((un : Int), none)

/-- Go `strconv.Atoi`: the returned `int` and the error (`none` is `nil`).  One
leading `+` or `-` is allowed; the value is clamped on a range error. -/
def Atoi (s : GoString) : Int × Option NumError :=
  match s with
  | [] => (0, some NumError.errInvalid)
  | c :: cs =>
    if c = '+' then parseIntFinish false (ParseUint cs)
    else if c = '-' then parseIntFinish true (ParseUint cs)
    else parseIntFinish false (ParseUint (c :: cs))

/-- Go `unicode.IsSpace`, the separator test of `strings.Fields`. -/
def isSpace (c : Char) : Bool :=
  let n := c.toNat
  decide (9 ≤ n ∧ n ≤ 13) || decide (n = 32) || decide (n = 133) || decide (n = 160) ||
  decide (n = 5760) || decide (8192 ≤ n ∧ n ≤ 8202) || decide (n = 8232) ||
  decide (n = 8233) || decide (n = 8239) || decide (n = 8287) || decide (n = 12288)

/-- True when the text is empty or starts with white space, that is when a
field cannot continue into it. -/
def atFieldEnd : List Char → Bool
  | [] => true
  | c :: _ => isSpace c

/-- Go `strings.Fields`: the maximal runs of characters that are not white
space, in order. -/
def Fields : List Char → List GoString
  | [] => []
  | c :: cs =>
    if isSpace c then Fields cs
    else if atFieldEnd cs then [c] :: Fields cs
    else
      match Fields cs with
      | f :: fs => (c :: f) :: fs
      | [] => [[c]]

/-- Go `strings.Split(s, ",")`: the pieces between the commas; there is always
at least one piece. -/
def SplitComma : List Char → List GoString
  | [] => [[]]
  | c :: cs =>
    if c = ',' then [] :: SplitComma cs
    else
      match SplitComma cs with
      | f :: fs => (c :: f) :: fs
      | [] => [[c]]

/-- Opening tag written by the replacement template. -/
def subOpen : GoString := ['<', 's', 'u', 'b', '>']

/-- Closing tag written by the replacement template. -/
def subClose : GoString := ['<', '/', 's', 'u', 'b', '>']

/-- True when the text starts with a decimal digit. -/
def startsWithDigit : List Char → Bool
  | [] => false
  | c :: _ => isDigit c

/-- Scanner for `texsub.ReplaceAllString(s, "<sub>$1</sub>")` with
`texsub = _(\d+)`.  `inSub` tells that the scan is inside the digits of a
match: the digits are copied, and the first character that is not a digit
closes the tag.  Outside a match an underscore followed by a digit opens a
match; any other character is copied. -/
def texsubScan : Bool → List Char → List Char
  | inSub, [] => if inSub then subClose else []
  | inSub, c :: cs =>
    if inSub && isDigit c then c :: texsubScan true cs
    else
      (if inSub then subClose else []) ++
        (if c = '_' && startsWithDigit cs then subOpen ++ texsubScan true cs
         else c :: texsubScan false cs)

/-- The rewrite `texsub.ReplaceAllString(s, "<sub>$1</sub>")` of `parseCaption`. -/
def texsubReplaceAll (s : GoString) : GoString := texsubScan false s

/-! ## Captions -/

/-- Go `image.Point`. -/
structure Point where
  X : Int
  Y : Int
deriving DecidableEq, Repr

/-- Caption holds the information for a caption. -/
structure Caption where
  Text : GoString
  Size : Int
  Position : Point
deriving DecidableEq, Repr

/-- The zero value `Caption{}`. -/
def Caption.zero : Caption := ⟨[], 0, ⟨0, 0⟩⟩

/-- The error value `errors.New("malformed caption")`. -/
inductive CaptionError where
  | malformedCaption : CaptionError
deriving DecidableEq, Repr

/-- Go `parseCaption`: the pair `(Caption, error)` it returns, or a panic.
Indexing `fields` or `strpt` out of range panics, as does a coordinate that
`Atoi` rejects; a size that `Atoi` rejects is returned as an error. -/
def parseCaption (fields : List GoString) : Run (Caption × Option CaptionError) :=
  match fields[1]? with
  | none => Run.panicked
  | some f1 =>
    match Atoi f1 with
    | (_, some _) => Run.ret (Caption.zero, some CaptionError.malformedCaption)
    | (size, none) =>
      match fields[2]? with
      | none => Run.panicked
      | some f2 =>
        let strpt := SplitComma f2
        match strpt[0]? with
        | none => Run.panicked
        | some s0 =>
          match Atoi s0 with
          | (_, some _) => Run.panicked
          | (ptx, none) =>
            match strpt[1]? with
            | none => Run.panicked
            | some s1 =>
              match Atoi s1 with
              | (_, some _) => Run.panicked
              | (pty, none) =>
                match fields[0]? with
                | none => Run.panicked
                | some f0 =>
                  Run.ret (⟨texsubReplaceAll f0, size, ⟨ptx, pty⟩⟩, none)

/-- Loop of Go `ParseCaptions` over the lines delivered by the scanner, `acc`
being the slice `ret` built so far. -/
def parseCaptionsLoop : List GoString → List Caption → Run (List Caption)
  | [], acc => Run.ret acc
  | line :: rest, acc =>
    let fields := Fields line
    if fields.length = 3 then
      match parseCaption fields with
      | Run.panicked => Run.panicked
      | Run.ret (cap, none) => parseCaptionsLoop rest (acc ++ [cap])
      | Run.ret (_, some _) => parseCaptionsLoop rest acc
    else parseCaptionsLoop rest acc

/-- Go `ParseCaptions`, on the lines of the caption file. -/
def ParseCaptions (lines : List GoString) : Run (List Caption) :=
  parseCaptionsLoop lines []

/-! ## Decimal output -/

/-- Character of a decimal digit (`'0' + d`). -/
def digitChar (d : Nat) : Char := Char.ofNat (48 + d)

/-- Decimal digits of a natural number, most significant first; `fuel` bounds
the number of digits. -/
def natDigits : Nat → Nat → List Char
  | 0, _ => []
  | fuel + 1, n =>
    if n < 10 then [digitChar n] else natDigits fuel (n / 10) ++ [digitChar (n % 10)]

/-- Go `fmt.Sprintf("%d", n)` (the same text as `strconv.Itoa`) for a 64-bit
`int`, which has at most 19 digits. -/
def Itoa (n : Int) : GoString :=
  if n < 0 then '-' :: natDigits 20 n.natAbs else natDigits 20 n.natAbs

/-! ## Images -/

/-- Go `image.Rectangle`. -/
structure Rectangle where
  Min : Point
  Max : Point
deriving DecidableEq, Repr

/-- Go `image.Rect`: the corners are swapped where needed so that the
rectangle is well formed. -/
def Rect (x0 y0 x1 y1 : Int) : Rectangle :=
  let (x0, x1) := if x0 > x1 then (x1, x0) else (x0, x1)
  let (y0, y1) := if y0 > y1 then (y1, y0) else (y0, y1)
  ⟨⟨x0, y0⟩, ⟨x1, y1⟩⟩

/-- Go `Rectangle.Empty`. -/
def Rectangle.Empty (r : Rectangle) : Bool :=
  decide (r.Min.X ≥ r.Max.X) || decide (r.Min.Y ≥ r.Max.Y)

/-- Go `Rectangle.Dx`. -/
def Rectangle.Dx (r : Rectangle) : Int := r.Max.X - r.Min.X

/-- Go `Rectangle.Dy`. -/
def Rectangle.Dy (r : Rectangle) : Int := r.Max.Y - r.Min.Y

/-- Go `image.ZR`, the zero rectangle. -/
def ZR : Rectangle := ⟨⟨0, 0⟩, ⟨0, 0⟩⟩

/-- Go `Rectangle.Intersect`: the largest rectangle contained in both, or `ZR`
when they do not overlap. -/
def Rectangle.Intersect (r s : Rectangle) : Rectangle :=
  let r1 : Rectangle :=
    ⟨⟨if r.Min.X < s.Min.X then s.Min.X else r.Min.X,
      if r.Min.Y < s.Min.Y then s.Min.Y else r.Min.Y⟩,
     ⟨if r.Max.X > s.Max.X then s.Max.X else r.Max.X,
      if r.Max.Y > s.Max.Y then s.Max.Y else r.Max.Y⟩⟩
  if r1.Empty then ZR else r1

/-- Go `Point.In`. -/
def Point.In (p : Point) (r : Rectangle) : Bool :=
  decide (r.Min.X ≤ p.X) && decide (p.X < r.Max.X) &&
  decide (r.Min.Y ≤ p.Y) && decide (p.Y < r.Max.Y)

/-- Go `color.NRGBA`, four 8-bit channels. -/
structure Color where
  R : Nat
  G : Nat
  B : Nat
  A : Nat
deriving DecidableEq, Repr

/-- The colour `Black = color.NRGBA{0, 0, 0, 255}`. -/
def Black : Color := ⟨0, 0, 0, 255⟩

/-- The zero value `color.NRGBA{}`. -/
def Color.zero : Color := ⟨0, 0, 0, 0⟩

/-- Go `image.NRGBA`: its bounds and the colour stored for each point (the
pixel buffer with its stride, read as a function of the coordinates). -/
structure Image where
  Rect : Rectangle
  pix : Int → Int → Color

/-- Go `(*NRGBA).At` / `NRGBAAt`: the zero colour outside the bounds. -/
def Image.At (p : Image) (x y : Int) : Color :=
  if (Point.mk x y).In p.Rect then p.pix x y else Color.zero

/-- Go `(*NRGBA).Set` with an NRGBA colour (which `NRGBAModel` leaves
unchanged): nothing happens outside the bounds. -/
def Image.Set (p : Image) (x y : Int) (c : Color) : Image :=
  if (Point.mk x y).In p.Rect then
    { Rect := p.Rect, pix := fun x1 y1 => if x1 = x ∧ y1 = y then c else p.pix x1 y1 }
  else p

/-- Go `image.NewNRGBA`: a transparent image with the given bounds; it panics
on negative dimensions. -/
def NewNRGBA (r : Rectangle) : Run Image :=
  if r.Dx < 0 ∨ r.Dy < 0 then Run.panicked
  else Run.ret { Rect := r, pix := fun _ _ => Color.zero }

/-- Go `(*NRGBA).SubImage`: the part of the image visible through `r`, sharing
the pixels; the empty image when `r` does not meet the bounds. -/
def Image.SubImage (p : Image) (r : Rectangle) : Image :=
  let r1 := r.Intersect p.Rect
  if r1.Empty then { Rect := ZR, pix := fun _ _ => Color.zero }
  else { Rect := r1, pix := p.pix }

/-- Inner loop of `NRGBA`: `for w := 0; w <= width; w++ { ret.Set(w, h, img.At(w, h)) }`. -/
def nrgbaRow (img : Image) (width : Int) (ret : Image) (h : Int) : Image :=
  (List.range (width + 1).toNat).foldl
    (fun (ret : Image) (w : Nat) => ret.Set w h (img.At w h)) ret

/-- Go `NRGBA`, for an `img` that is itself an `image.NRGBA` (as in
`cropImage`): copies `img` into a fresh image with the same bounds, visiting
the points `(w, h)` with `0 <= w <= Max.X` and `0 <= h <= Max.Y`. -/
def NRGBA (img : Image) : Run Image :=
  let rect := img.Rect
  match NewNRGBA rect with
  | Run.panicked => Run.panicked
  | Run.ret ret =>
    let height := rect.Max.Y
    let width := rect.Max.X
    Run.ret ((List.range (height + 1).toNat).foldl
      (fun (ret : Image) (h : Nat) => nrgbaRow img width ret h) ret)

/-- Collaborators outside the repository.  `Label text size` is the bitmap the
text renderer returns (the renderer is taken to answer with a bitmap; `Label`
panics when it does not, an outcome that is not part of the model),
`Draw dst r src sp` is `draw.Draw(dst, r, src, sp, draw.Over)`, and `sqrtInt n`
is `int(math.Sqrt(float64(n)))`. -/
structure Env where
  Label : GoString → Int → Image
  Draw : Image → Rectangle → Image → Point → Image
  sqrtInt : Int → Int

/-- The Go loop `for i := start; i < bound; i += step { s = body i s }` run for
at most `fuel` tests of its condition; `none` when the fuel does not suffice. -/
def forStep {σ : Type} (bound step : Int) (body : Int → σ → σ) : Nat → Int → σ → Option σ
  | 0, _, _ => none
  | fuel + 1, i, s =>
    if i < bound then forStep bound step body fuel (i + step) (body i s) else some s

/-- Step `hsize` (or `wsize`) of `DrawGrid` for an extent and a line count. -/
def gridStep (extent count : Int) : Int :=
  if count > 0 then extent.tdiv count else extent - 1

/-- Body of the first loop of `DrawGrid`: the label of row `h` is composited
at the left edge, then the row is set to `Black` for `0 <= w <= width`. -/
def drawHLine (env : Env) (font width : Int) (h : Int) (img : Image) : Image :=
  let label := env.Label (Itoa h) font
  let lw := label.Rect.Max.X
  let lh := label.Rect.Max.Y
  let img1 := env.Draw img (Rect 0 h lw (h + lh)) label ⟨0, 0⟩
  (List.range (width + 1).toNat).foldl (fun (im : Image) (w : Nat) => im.Set w h Black) img1

/-- Body of the second loop of `DrawGrid`: the label of column `w` is
composited at the top edge, then the column is set to `Black` for
`0 <= h <= height`. -/
def drawVLine (env : Env) (font height : Int) (w : Int) (img : Image) : Image :=
  let label := env.Label (Itoa w) font
  let lw := label.Rect.Max.X
  let lh := label.Rect.Max.Y
  let img1 := env.Draw img (Rect w 0 (w + lw) lh) label ⟨0, 0⟩
  (List.range (height + 1).toNat).foldl (fun (im : Image) (h : Nat) => im.Set w h Black) img1

/-- Label font size of `DrawGrid`: `int(math.Sqrt(float64(height*width))) / 100`. -/
def gridFont (env : Env) (height width : Int) : Int :=
  (env.sqrtInt (height * width)).tdiv 100

/-- First loop of `DrawGrid`: `for h := hsize; h < height; h += hsize`. -/
def drawHLines (env : Env) (fuel : Nat) (img : Image) (h : Int) : Option Image :=
  let height := img.Rect.Max.Y
  let width := img.Rect.Max.X
  let hsize := gridStep height h
  forStep height hsize (drawHLine env (gridFont env height width) width) fuel hsize img

/-- Second loop of `DrawGrid`: `for w := wsize; w < width; w += wsize`, with the
height and width read from the image before the first loop. -/
def drawVLines (env : Env) (fuel : Nat) (height width : Int) (img : Image) (v : Int) :
    Option Image :=
  let wsize := gridStep width v
  forStep width wsize (drawVLine env (gridFont env height width) height) fuel wsize img

/-- Go `DrawGrid`: the horizontal loop followed by the vertical loop; `none`
when a loop is still running after `fuel` tests of its condition. -/
def DrawGrid (env : Env) (fuel : Nat) (img : Image) (h v : Int) : Option Image :=
  match drawHLines env fuel img h with
  | none => none
  | some img1 => drawVLines env fuel img.Rect.Max.Y img.Rect.Max.X img1 v

/-- Go `ParseGrid`: the two counts of the `-grid` text; `none` stands for the
exit through `log.Fatal` when the text does not have two comma separated
pieces.  The error of `Atoi` is discarded. -/
def ParseGrid (str : GoString) : Option (Int × Int) :=
  let split := SplitComma str
  if split.length ≠ 2 then none
  else some ((Atoi (split.getD 0 [])).1, (Atoi (split.getD 1 [])).1)

/-- Rectangle that `drawCaption` hands to `draw.Draw` for a caption position
and the label extents `lw`, `lh`. -/
def captionRect (pos : Point) (lw lh : Int) : Rectangle :=
  Rect (pos.X - lw.tdiv 2) (pos.Y - lh.tdiv 2) (pos.X + lw.tdiv 2) (pos.Y + lh.tdiv 2)

/-- Go `drawCaption`. -/
def drawCaption (env : Env) (pic : Image) (caption : Caption) : Image :=
  let label := env.Label caption.Text caption.Size
  let lw := label.Rect.Max.X
  let lh := label.Rect.Max.Y
  env.Draw pic (captionRect caption.Position lw lh) label ⟨0, 0⟩

/-- Go `cropImage`: panics unless the text has four comma separated pieces;
the error of `Atoi` is discarded and only its value is used. -/
def cropImage (pic : Image) (crop : GoString) : Run Image :=
  let coords := SplitComma crop
  if coords.length ≠ 4 then Run.panicked
  else
    let icoords := coords.map (fun c => (Atoi c).1)
    NRGBA (pic.SubImage (Rect (icoords.getD 0 0) (icoords.getD 1 0)
      (icoords.getD 2 0) (icoords.getD 3 0)))

/-! ## Notions of the specification -/

/-- Positions visited by a loop that starts at `step` and advances by `step`
while the position is below `bound`: `step, 2*step, ...`. -/
def gridLines (bound step : Int) : List Int :=
  (List.range ((bound - 1) / step).toNat).map (fun (k : Nat) => ((k : Int) + 1) * step)

/-- Range of a 64-bit `int`. -/
def inInt64 (n : Int) : Prop := -(2 : Int) ^ 63 ≤ n ∧ n < (2 : Int) ^ 63

/-- Value of a string of decimal digits, most significant first. -/
def decimalValue (ds : List Char) : Nat :=
  ds.foldl (fun a c => a * 10 + digitVal c) 0

/-- One or more decimal digits. -/
def decimalDigits (ds : List Char) : Bool := !ds.isEmpty && ds.all isDigit

/-- The text `s` is a decimal integer with value `n`: an optional sign `+` or
`-`, then one or more decimal digits, the value fitting a 64-bit `int`. -/
def isDecimalInt (s : GoString) (n : Int) : Bool :=
  decide (-(2 : Int) ^ 63 ≤ n ∧ n < (2 : Int) ^ 63) &&
    match s with
    | '+' :: ds => decimalDigits ds && decide (n = (decimalValue ds : Int))
    | '-' :: ds => decimalDigits ds && decide (n = -(decimalValue ds : Int))
    | ds => decimalDigits ds && decide (n = (decimalValue ds : Int))

/-- True when no underscore of the text is directly followed by a digit. -/
def noSubscript : List Char → Bool
  | [] => true
  | c :: cs => !(decide (c = '_') && startsWithDigit cs) && noSubscript cs

/-- The rewrite as the specification words it: each underscore followed by a
run of one or more digits `_d1..dk` (the whole run) becomes
`<sub>d1..dk</sub>`, and every other character is kept. -/
inductive SubRewrite : GoString → GoString → Prop where
  | done : SubRewrite [] []
  | sub (ds rest out : GoString) : ds ≠ [] → (∀ c ∈ ds, isDigit c = true) →
      startsWithDigit rest = false → SubRewrite rest out →
      SubRewrite ('_' :: (ds ++ rest)) (subOpen ++ (ds ++ (subClose ++ out)))
  | keep (c : Char) (rest out : GoString) : ¬ (c = '_' ∧ startsWithDigit rest = true) →
      SubRewrite rest out → SubRewrite (c :: rest) (c :: out)

/-- A line is well formed, in the words of the specification, when it has
exactly three white space separated fields and its size field parses as an
integer. -/
def wellFormedLine (line : GoString) : Bool :=
  match Fields line with
  | [_, s, _] => (Atoi s).2.isNone
  | _ => false

/-- Coordinates are well formed, in the words of the specification, when the
field splits on commas into exactly two components that both parse as
integers. -/
def wellFormedCoords (c : GoString) : Bool :=
  match SplitComma c with
  | [x, y] => (Atoi x).2.isNone && (Atoi y).2.isNone
  | _ => false

/-- The line `<text> <size> <x>,<y>` for a caption, with decimal integers, as
the round trip property words it. -/
def serializeCaption (c : Caption) : GoString :=
  c.Text ++ ' ' :: (Itoa c.Size ++ ' ' :: (Itoa c.Position.X ++ ',' :: Itoa c.Position.Y))

/-- A line has no malformed coordinates when it does not have exactly three
fields or its third field is well formed. -/
def noMalformedCoords (line : GoString) : Bool :=
  match Fields line with
  | [_, _, c] => wellFormedCoords c
  | _ => true

/-- What `parseCaption` guarantees of a caption it returns for a line of the
file: a text that is not empty, has no white space and no shorthand left, and
64-bit numbers. -/
def Caption.Parsed (c : Caption) : Prop :=
  c.Text ≠ [] ∧ (∀ x ∈ c.Text, isSpace x = false) ∧ noSubscript c.Text = true ∧
    inInt64 c.Size ∧ inInt64 c.Position.X ∧ inInt64 c.Position.Y

/-- Rectangle into which the first loop of `DrawGrid` composites the label of
row `r`: `image.Rect(0, r, lw, r+lh)`. -/
def rowLabelRect (env : Env) (font : Int) (r : Int) : Rectangle :=
  Rect 0 r (env.Label (Itoa r) font).Rect.Max.X (r + (env.Label (Itoa r) font).Rect.Max.Y)

/-- Rectangle into which the second loop of `DrawGrid` composites the label of
column `c`: `image.Rect(c, 0, c+lw, lh)`. -/
def colLabelRect (env : Env) (font : Int) (c : Int) : Rectangle :=
  Rect c 0 (c + (env.Label (Itoa c) font).Rect.Max.X) (env.Label (Itoa c) font).Rect.Max.Y

/-- What the collaborators guarantee: `draw.Draw` keeps the bounds of the
destination and changes no pixel outside the rectangle it is given, and a label
bitmap has a width and a height that are not negative. -/
def Env.WellBehaved (env : Env) : Prop :=
  (∀ (dst : Image) (r : Rectangle) (src : Image) (sp : Point),
    (env.Draw dst r src sp).Rect = dst.Rect) ∧
  (∀ (dst : Image) (r : Rectangle) (src : Image) (sp : Point) (x y : Int),
    (Point.mk x y).In r = false → (env.Draw dst r src sp).pix x y = dst.pix x y) ∧
  (∀ (t : GoString) (f : Int),
    0 ≤ (env.Label t f).Rect.Max.X ∧ 0 ≤ (env.Label t f).Rect.Max.Y)

/-! ## Fixtures for concrete instances -/

/-- A fully transparent image with bounds `(0,0)-(W,H)`. -/
def transparentImage (W H : Int) : Image :=
  { Rect := ⟨⟨0, 0⟩, ⟨W, H⟩⟩, pix := fun _ _ => Color.zero }

/-- An opaque test picture with bounds `(0,0)-(W,H)` whose pixel at `(x, y)`
records its own coordinates. -/
def sampleImage (W H : Int) : Image :=
  { Rect := ⟨⟨0, 0⟩, ⟨W, H⟩⟩
    pix := fun x y => ⟨(x % 256).toNat, (y % 256).toNat, 0, 255⟩ }

/-- A stand-in for the collaborators: every label is a transparent `100x40`
bitmap, the compositor copies the source pixels into the part of the rectangle
that lies in the destination, and the square root is the integer square root. -/
def fixedEnv : Env :=
  { Label := fun _ _ => transparentImage 100 40
    Draw := fun dst r src sp =>
      { Rect := dst.Rect
        pix := fun x y =>
          if (Point.mk x y).In (r.Intersect dst.Rect) then
            src.At (x - r.Min.X + sp.X) (y - r.Min.Y + sp.Y)
          else dst.pix x y }
    sqrtInt := fun n => Int.sqrt n }

/-! ## The stepping loop -/

theorem forStep_eq_foldl {σ : Type} (bound step : Int) (body : Int → σ → σ) :
    ∀ (n fuel : Nat) (i : Int) (s : σ), n < fuel →
      (∀ k : Nat, k < n → i + k * step < bound) → bound ≤ i + n * step →
      forStep bound step body fuel i s =
        some (((List.range n).map (fun (k : Nat) => i + (k : Int) * step)).foldl
          (fun s r => body r s) s) := by
  intro n
  induction n with
  | zero =>
    intro fuel i s hf _ hge
    cases fuel with
    | zero => omega
    | succ f =>
      have : ¬ i < bound := by simpa using hge
      simp [forStep, this]
  | succ n ih =>
    intro fuel i s hf hlt hge
    cases fuel with
    | zero => omega
    | succ f =>
      have h0 : i < bound := by simpa using hlt 0 (Nat.succ_pos n)
      have hrec := ih f (i + step) (body i s) (by omega)
        (by
          intro k hk
          have := hlt (k + 1) (by omega)
          push_cast at this
          linarith)
        (by push_cast at hge; linarith)
      simp only [forStep, h0, if_true, hrec]
      rw [List.range_succ_eq_map]
      simp only [List.map_cons, List.map_map, List.foldl_cons, Nat.cast_zero, zero_mul, add_zero]
      congr 2
      apply List.map_congr_left
      intro k _
      simp only [Function.comp]
      push_cast
      ring

theorem forStep_none_of_nonpos {σ : Type} (bound step : Int) (body : Int → σ → σ)
    (hstep : step ≤ 0) :
    ∀ (fuel : Nat) (i : Int) (s : σ), i < bound → forStep bound step body fuel i s = none := by
  intro fuel
  induction fuel with
  | zero => intro i s _; rfl
  | succ f ih =>
    intro i s hi
    simp only [forStep, hi, if_true]
    exact ih _ _ (by linarith)

theorem gridLines_count (bound step : Int) (hstep : 1 ≤ step) :
    (∀ k : Nat, k < ((bound - 1) / step).toNat → step + k * step < bound) ∧
      bound ≤ step + (((bound - 1) / step).toNat : Int) * step := by
  constructor
  · intro k hk
    have hk1 : ((k : Int) + 1) ≤ (bound - 1) / step := by
      have : (k : Int) < (bound - 1) / step := by
        have := Int.lt_toNat.mp hk
        exact this
      omega
    have := (Int.le_ediv_iff_mul_le (by omega : 0 < step)).mp hk1
    linarith
  · by_cases hq : 0 ≤ (bound - 1) / step
    · rw [Int.toNat_of_nonneg hq]
      have := Int.lt_ediv_add_one_mul_self (bound - 1) (by omega : 0 < step)
      linarith
    · have hq0 : ((bound - 1) / step).toNat = 0 := by
        apply Int.toNat_eq_zero.mpr; omega
      rw [hq0]
      have : bound - 1 < 0 := by
        by_contra hb
        exact hq (Int.ediv_nonneg (by omega) (by omega))
      simp
      omega

theorem forStep_gridLines {σ : Type} (bound step : Int) (body : Int → σ → σ)
    (hstep : 1 ≤ step) (fuel : Nat) (hfuel : bound.toNat < fuel) (s : σ) :
    forStep bound step body fuel step s =
      some ((gridLines bound step).foldl (fun s r => body r s) s) := by
  obtain ⟨h1, h2⟩ := gridLines_count bound step hstep
  have hn : ((bound - 1) / step).toNat < fuel := by
    have : ((bound - 1) / step).toNat ≤ bound.toNat := by
      by_cases hb : 0 ≤ bound - 1
      · apply Int.toNat_le_toNat
        have := Int.ediv_le_self step hb
        omega
      · have hneg : (bound - 1) / step < 0 := Int.ediv_neg' (by omega) (by omega)
        have : ((bound - 1) / step).toNat = 0 := Int.toNat_eq_zero.mpr (by omega)
        omega
    omega
  rw [forStep_eq_foldl bound step body _ fuel step s hn h1 h2]
  unfold gridLines
  congr 2
  apply List.map_congr_left
  intro k _
  ring

theorem mem_gridLines (bound step : Int) (hstep : 1 ≤ step) (r : Int) :
    r ∈ gridLines bound step ↔ ∃ k : Nat, 1 ≤ k ∧ r = (k : Int) * step ∧ r < bound := by
  obtain ⟨h1, h2⟩ := gridLines_count bound step hstep
  unfold gridLines
  simp only [List.mem_map, List.mem_range]
  constructor
  · rintro ⟨k, hk, rfl⟩
    refine ⟨k + 1, by omega, by push_cast; ring, ?_⟩
    have := h1 k hk
    linarith
  · rintro ⟨k, hk, rfl, hlt⟩
    refine ⟨k - 1, ?_, ?_⟩
    · by_contra hcon
      have hle : (((bound - 1) / step).toNat : Int) ≤ (k : Int) - 1 := by omega
      have : (((bound - 1) / step).toNat : Int) * step ≤ ((k : Int) - 1) * step :=
        Int.mul_le_mul_of_nonneg_right hle (by omega)
      linarith
    · have : ((k - 1 : Nat) : Int) = (k : Int) - 1 := by omega
      rw [this]; ring

/-! ## Decimal text -/

theorem isDigit_digitChar (d : Nat) (h : d < 10) : isDigit (digitChar d) = true := by
  interval_cases d <;> decide

theorem digitVal_digitChar (d : Nat) (h : d < 10) : digitVal (digitChar d) = d := by
  interval_cases d <;> decide

theorem parseUintLoop_append (a b : List Char) :
    ∀ n : Nat, parseUintLoop (a ++ b) n =
      match parseUintLoop a n with
      | (m, none) => parseUintLoop b m
      | (m, some e) => (m, some e) := by
  induction a with
  | nil => intro n; simp [parseUintLoop]
  | cons c cs ih =>
    intro n
    simp only [List.cons_append, parseUintLoop]
    split_ifs <;> simp [ih]

theorem parseUintLoop_natDigits :
    ∀ (fuel m : Nat), m < 10 ^ fuel → m ≤ maxUint64 →
      parseUintLoop (natDigits fuel m) 0 = (m, none) := by
  intro fuel
  induction fuel with
  | zero =>
    intro m h _
    have : m = 0 := by simpa using h
    subst this
    rfl
  | succ f ih =>
    intro m hm hmax
    have hmx : maxUint64 = 18446744073709551615 := by decide
    rw [hmx] at hmax
    unfold natDigits
    by_cases h10 : m < 10
    · simp only [h10, if_true, parseUintLoop, isDigit_digitChar m h10, digitVal_digitChar m h10]
      have : ¬ (18446744073709551615 / 10 + 1 ≤ 0) := by decide
      simp only [hmx, this, if_false, zero_mul, zero_add]
      have : ¬ (18446744073709551615 < m) := by omega
      simp [this]
    · simp only [h10, if_false]
      have hlt : m / 10 < 10 ^ f := by
        rw [pow_succ] at hm
        omega
      have hq : m / 10 ≤ maxUint64 := by rw [hmx]; omega
      rw [parseUintLoop_append, ih (m / 10) hlt hq]
      have hd : m % 10 < 10 := Nat.mod_lt _ (by decide)
      simp only [parseUintLoop, isDigit_digitChar _ hd, digitVal_digitChar _ hd, if_true]
      have h1 : ¬ (18446744073709551615 / 10 + 1 ≤ m / 10) := by omega
      have h2 : m / 10 * 10 + m % 10 = m := by omega
      have h3 : ¬ (18446744073709551615 < m) := by omega
      simp [hmx, h1, h2, h3]

theorem natDigits_all_digit :
    ∀ (fuel m : Nat) (c : Char), c ∈ natDigits fuel m → isDigit c = true := by
  intro fuel
  induction fuel with
  | zero => intro m c h; simp [natDigits] at h
  | succ f ih =>
    intro m c h
    unfold natDigits at h
    by_cases h10 : m < 10
    · simp only [h10, if_true, List.mem_singleton] at h
      rw [h]; exact isDigit_digitChar m h10
    · simp only [h10, if_false, List.mem_append, List.mem_singleton] at h
      rcases h with h | h
      · exact ih _ _ h
      · rw [h]; exact isDigit_digitChar _ (Nat.mod_lt _ (by decide))

theorem natDigits_ne_nil (fuel m : Nat) : natDigits (fuel + 1) m ≠ [] := by
  unfold natDigits
  split_ifs <;> simp

theorem parseUintLoop_ok_digits :
    ∀ (s : List Char) (n m : Nat), parseUintLoop s n = (m, none) →
      ∀ c ∈ s, isDigit c = true := by
  intro s
  induction s with
  | nil => intro n m _ c hc; simp at hc
  | cons d ds ih =>
    intro n m h c hc
    simp only [parseUintLoop] at h
    by_cases hd : isDigit d = true
    · simp only [hd, if_true] at h
      split_ifs at h with h1 h2
      · simp at h
      · simp at h
      · rcases List.mem_cons.mp hc with rfl | hc
        · exact hd
        · exact ih _ _ h c hc
    · simp [hd] at h

theorem parseUintLoop_ok_le :
    ∀ (s : List Char) (n m : Nat), n ≤ maxUint64 → parseUintLoop s n = (m, none) →
      m ≤ maxUint64 := by
  intro s
  induction s with
  | nil => intro n m hn h; simp [parseUintLoop] at h; omega
  | cons d ds ih =>
    intro n m hn h
    simp only [parseUintLoop] at h
    split_ifs at h with h0 h1 h2
    · simp at h
    · simp at h
    · exact ih _ _ (by omega) h
    · simp at h

theorem parseIntFinish_ok (neg : Bool) (un : Nat) (e : Option NumError) (n : Int)
    (h : parseIntFinish neg (un, e) = (n, none)) :
    inInt64 n ∧ n = (if neg then -(un : Int) else (un : Int)) := by
  unfold parseIntFinish at h
  unfold inInt64
  have key : (!neg && decide (2 ^ 63 ≤ un)) = false ∧ (neg && decide (2 ^ 63 < un)) = false ∧
      n = (if neg then -(un : Int) else (un : Int)) := by
    cases e with
    | none =>
      simp only at h
      split_ifs at h with h1 h2 h3 <;> simp_all
    | some e =>
      cases e with
      | errInvalid => simp at h
      | errRange =>
        simp only at h
        split_ifs at h with h1 h2 h3 <;> simp_all
  obtain ⟨k1, k2, k3⟩ := key
  cases neg with
  | true =>
    simp only [Bool.true_and, decide_eq_false_iff_not, not_lt] at k2
    simp only [if_true] at k3 ⊢
    refine ⟨?_, k3⟩
    have : (un : Int) ≤ 2 ^ 63 := by exact_mod_cast k2
    rw [k3]; constructor <;> omega
  | false =>
    simp only [Bool.not_false, Bool.true_and, decide_eq_false_iff_not, not_le] at k1
    simp only [Bool.false_eq_true, if_false] at k3 ⊢
    refine ⟨?_, k3⟩
    have : (un : Int) < 2 ^ 63 := by exact_mod_cast k1
    rw [k3]; constructor <;> omega

theorem ParseUint_ok_digits (s : List Char) (m : Nat) (e : Option NumError)
    (h : ParseUint s = (m, e)) (he : e ≠ some NumError.errInvalid) (herr : e = none) :
    ∀ c ∈ s, isDigit c = true := by
  subst herr
  cases s with
  | nil => simp [ParseUint] at h
  | cons d ds =>
    simp only [ParseUint] at h
    exact parseUintLoop_ok_digits _ _ _ h

theorem Atoi_ok (s : GoString) (n : Int) (h : Atoi s = (n, none)) :
    inInt64 n ∧ ∀ c ∈ s, isDigit c = true ∨ c = '+' ∨ c = '-' := by
  cases s with
  | nil => simp [Atoi] at h
  | cons c cs =>
    simp only [Atoi] at h
    have aux : ∀ (neg : Bool) (t : List Char), parseIntFinish neg (ParseUint t) = (n, none) →
        inInt64 n ∧ ∀ c ∈ t, isDigit c = true := by
      intro neg t ht
      rcases hp : ParseUint t with ⟨un, e⟩
      rw [hp] at ht
      refine ⟨(parseIntFinish_ok neg un e n ht).1, ?_⟩
      cases e with
      | none => exact ParseUint_ok_digits t un none hp (by simp) rfl
      | some e =>
        cases e with
        | errInvalid => simp [parseIntFinish] at ht
        | errRange =>
          exfalso
          cases t with
          | nil => simp [ParseUint] at hp
          | cons d ds =>
            -- a range error always carries the value `maxUint64`
            have hmax : ∀ (l : List Char) (k : Nat), parseUintLoop l k = (un, some NumError.errRange) →
                un = maxUint64 := by
              intro l
              induction l with
              | nil => intro k hk; simp [parseUintLoop] at hk
              | cons x xs ih =>
                intro k hk
                simp only [parseUintLoop] at hk
                split_ifs at hk with h0 h1 h2
                · simp at hk; exact hk.symm
                · simp at hk; exact hk.symm
                · exact ih _ hk
                · simp at hk
            simp only [ParseUint] at hp
            have hu := hmax _ _ hp
            subst hu
            cases neg <;> simp [parseIntFinish, maxUint64] at ht
    split_ifs at h with h1 h2
    · obtain ⟨r, d⟩ := aux false cs h
      refine ⟨r, ?_⟩
      intro x hx
      rcases List.mem_cons.mp hx with rfl | hx
      · right; left; exact h1
      · left; exact d x hx
    · obtain ⟨r, d⟩ := aux true cs h
      refine ⟨r, ?_⟩
      intro x hx
      rcases List.mem_cons.mp hx with rfl | hx
      · right; right; exact h2
      · left; exact d x hx
    · obtain ⟨r, d⟩ := aux false (c :: cs) h
      exact ⟨r, fun x hx => Or.inl (d x hx)⟩

theorem Atoi_Itoa (n : Int) (h : inInt64 n) : Atoi (Itoa n) = (n, none) := by
  obtain ⟨hlo, hhi⟩ := h
  have hmx : maxUint64 = 18446744073709551615 := by decide
  have hpow : (2 : Int) ^ 63 = 9223372036854775808 := by norm_num
  have hpowN : (2 : Nat) ^ 63 = 9223372036854775808 := by norm_num
  rw [hpow] at hlo hhi
  have habs : n.natAbs < 10 ^ 20 := by
    have : (10 : Nat) ^ 20 = 100000000000000000000 := by norm_num
    omega
  have hle : n.natAbs ≤ maxUint64 := by rw [hmx]; omega
  have hloop := parseUintLoop_natDigits 20 n.natAbs habs hle
  have hne : natDigits 20 n.natAbs ≠ [] := natDigits_ne_nil 19 _
  have hpu : ParseUint (natDigits 20 n.natAbs) = (n.natAbs, none) := by
    unfold ParseUint
    split
    · rename_i heq; exact absurd heq hne
    · exact hloop
  unfold Itoa
  by_cases hneg : n < 0
  · simp only [hneg, if_true, Atoi]
    have h1 : ¬ ('-' = '+') := by decide
    simp only [h1, if_false, if_true, hpu, parseIntFinish]
    have h2 : ¬ (2 ^ 63 < n.natAbs) := by rw [hpowN]; omega
    simp only [Bool.not_true, Bool.false_and, Bool.true_and, decide_eq_true_eq, h2, if_false,
      Bool.false_eq_true, if_true]
    congr 1
    omega
  · simp only [hneg, if_false]
    rcases hd : natDigits 20 n.natAbs with _ | ⟨c, cs⟩
    · exact absurd hd hne
    · have hc : isDigit c = true := natDigits_all_digit 20 n.natAbs c (by rw [hd]; simp)
      have hp : c ≠ '+' := by rintro rfl; revert hc; decide
      have hm : c ≠ '-' := by rintro rfl; revert hc; decide
      simp only [Atoi, hp, hm, if_false]
      rw [← hd, hpu]
      simp only [parseIntFinish]
      have h2 : ¬ (2 ^ 63 ≤ n.natAbs) := by rw [hpowN]; omega
      simp only [Bool.not_false, Bool.true_and, decide_eq_true_eq, h2, if_false,
        Bool.false_and, Bool.false_eq_true]
      congr 1
      omega

theorem foldl_digits_ge (ds : List Char) :
    ∀ n : Nat, n ≤ ds.foldl (fun a c => a * 10 + digitVal c) n := by
  induction ds with
  | nil => intro n; exact le_refl _
  | cons c cs ih =>
    intro n
    simp only [List.foldl_cons]
    have := ih (n * 10 + digitVal c)
    omega

theorem parseUintLoop_value (ds : List Char) :
    ∀ n : Nat, (∀ c ∈ ds, isDigit c = true) →
      ds.foldl (fun a c => a * 10 + digitVal c) n ≤ maxUint64 →
      parseUintLoop ds n = (ds.foldl (fun a c => a * 10 + digitVal c) n, none) := by
  have hmx : maxUint64 = 18446744073709551615 := by decide
  induction ds with
  | nil => intro n _ _; rfl
  | cons c cs ih =>
    intro n hd hle
    have hc : isDigit c = true := hd c (by simp)
    simp only [List.foldl_cons] at hle ⊢
    have hge := foldl_digits_ge cs (n * 10 + digitVal c)
    rw [hmx] at hle
    rw [parseUintLoop]
    have h1 : ¬ (maxUint64 / 10 + 1 ≤ n) := by rw [hmx]; omega
    have h2 : ¬ (maxUint64 < n * 10 + digitVal c) := by rw [hmx]; omega
    simp only [hc, if_true, h1, if_false, h2]
    exact ih _ (fun x hx => hd x (List.mem_cons_of_mem _ hx)) (by rw [hmx]; exact hle)

theorem parseUintLoop_ok_value (ds : List Char) :
    ∀ n m : Nat, parseUintLoop ds n = (m, none) →
      m = ds.foldl (fun a c => a * 10 + digitVal c) n := by
  induction ds with
  | nil => intro n m h; simp [parseUintLoop] at h; simp [h]
  | cons c cs ih =>
    intro n m h
    simp only [parseUintLoop] at h
    split_ifs at h with h0 h1 h2
    · simp at h
    · simp at h
    · simpa using ih _ _ h
    · simp at h

theorem ParseUint_of_digits (ds : List Char) (hd : decimalDigits ds = true)
    (hle : decimalValue ds ≤ maxUint64) : ParseUint ds = (decimalValue ds, none) := by
  simp only [decimalDigits, Bool.and_eq_true, Bool.not_eq_true', List.isEmpty_eq_false,
    List.all_eq_true] at hd
  cases ds with
  | nil => exact absurd rfl hd.1
  | cons c cs =>
    simp only [ParseUint]
    exact parseUintLoop_value _ 0 hd.2 hle

theorem ParseUint_ok_decimal (ds : List Char) (m : Nat) (h : ParseUint ds = (m, none)) :
    decimalDigits ds = true ∧ m = decimalValue ds := by
  cases ds with
  | nil => simp [ParseUint] at h
  | cons c cs =>
    simp only [ParseUint] at h
    refine ⟨?_, parseUintLoop_ok_value _ 0 m h⟩
    simp only [decimalDigits, Bool.and_eq_true, Bool.not_eq_true', List.isEmpty_eq_false,
      List.all_eq_true]
    exact ⟨by simp, parseUintLoop_ok_digits _ 0 m h⟩

theorem parseIntFinish_of_value (neg : Bool) (un : Nat) (n : Int)
    (hr : inInt64 n) (hn : n = if neg then -(un : Int) else (un : Int)) :
    parseIntFinish neg (un, none) = (n, none) := by
  obtain ⟨hlo, hhi⟩ := hr
  have hpow : (2 : Int) ^ 63 = 9223372036854775808 := by norm_num
  have hpowN : (2 : Nat) ^ 63 = 9223372036854775808 := by norm_num
  rw [hpow] at hlo hhi
  unfold parseIntFinish
  cases neg with
  | true =>
    simp only [if_true] at hn
    have h2 : ¬ (2 ^ 63 < un) := by rw [hpowN]; omega
    simp only [Bool.not_true, Bool.false_and, Bool.true_and, decide_eq_true_eq, h2, if_false,
      Bool.false_eq_true, if_true, hn]
  | false =>
    simp only [Bool.false_eq_true, if_false] at hn
    have h2 : ¬ (2 ^ 63 ≤ un) := by rw [hpowN]; omega
    simp only [Bool.not_false, Bool.true_and, decide_eq_true_eq, h2, if_false,
      Bool.false_and, Bool.false_eq_true, hn]

theorem parseIntFinish_ParseUint_iff (neg : Bool) (ds : List Char) (n : Int) :
    parseIntFinish neg (ParseUint ds) = (n, none) ↔
      inInt64 n ∧ decimalDigits ds = true ∧
        n = if neg then -(decimalValue ds : Int) else (decimalValue ds : Int) := by
  have hmx : maxUint64 = 18446744073709551615 := by decide
  have hpow : (2 : Int) ^ 63 = 9223372036854775808 := by norm_num
  constructor
  · intro h
    rcases hp : ParseUint ds with ⟨un, e⟩
    rw [hp] at h
    obtain ⟨hr, hn⟩ := parseIntFinish_ok neg un e n h
    cases e with
    | none =>
      obtain ⟨hd, hv⟩ := ParseUint_ok_decimal ds un hp
      subst hv
      exact ⟨hr, hd, hn⟩
    | some e =>
      exfalso
      cases e with
      | errInvalid => simp [parseIntFinish] at h
      | errRange =>
        cases ds with
        | nil => simp [ParseUint] at hp
        | cons d ds =>
          have hmax : ∀ (l : List Char) (k : Nat),
              parseUintLoop l k = (un, some NumError.errRange) → un = maxUint64 := by
            intro l
            induction l with
            | nil => intro k hk; simp [parseUintLoop] at hk
            | cons x xs ih =>
              intro k hk
              simp only [parseUintLoop] at hk
              split_ifs at hk with h0 h1 h2
              · simp at hk; exact hk.symm
              · simp at hk; exact hk.symm
              · exact ih _ hk
              · simp at hk
          simp only [ParseUint] at hp
          have hu := hmax _ _ hp
          subst hu
          cases neg <;> simp [parseIntFinish, maxUint64] at h
  · rintro ⟨hr, hd, hn⟩
    have hle : decimalValue ds ≤ maxUint64 := by
      obtain ⟨hlo, hhi⟩ := hr
      rw [hpow] at hlo hhi
      rw [hmx]
      cases neg with
      | true => simp only [if_true] at hn; omega
      | false => simp only [Bool.false_eq_true, if_false] at hn; omega
    rw [ParseUint_of_digits ds hd hle]
    exact parseIntFinish_of_value neg _ n hr hn

theorem decimalDigits_head (c : Char) (cs : List Char) (h : decimalDigits (c :: cs) = true) :
    c ≠ '+' ∧ c ≠ '-' := by
  simp only [decimalDigits, Bool.and_eq_true, List.all_eq_true] at h
  have hc : isDigit c = true := h.2 c (by simp)
  constructor
  · rintro rfl; exact absurd hc (by decide)
  · rintro rfl; exact absurd hc (by decide)

theorem Atoi_eq_iff (s : GoString) (n : Int) :
    Atoi s = (n, none) ↔ isDecimalInt s n = true := by
  have hr : (decide (-(2 : Int) ^ 63 ≤ n ∧ n < (2 : Int) ^ 63) = true) ↔ inInt64 n := by
    simp [inInt64]
  cases s with
  | nil =>
    simp [Atoi, isDecimalInt, decimalDigits]
  | cons c cs =>
    by_cases h1 : c = '+'
    · subst h1
      simp only [Atoi, if_true, isDecimalInt, Bool.and_eq_true, decide_eq_true_eq]
      rw [parseIntFinish_ParseUint_iff]
      simp [inInt64]
    · by_cases h2 : c = '-'
      · subst h2
        have : ¬ ('-' = '+') := by decide
        simp only [Atoi, this, if_false, if_true, isDecimalInt, Bool.and_eq_true,
          decide_eq_true_eq]
        rw [parseIntFinish_ParseUint_iff]
        simp [inInt64]
      · simp only [Atoi, h1, h2, if_false]
        rw [parseIntFinish_ParseUint_iff]
        have hm : isDecimalInt (c :: cs) n =
            (decide (-(2 : Int) ^ 63 ≤ n ∧ n < (2 : Int) ^ 63) &&
              (decimalDigits (c :: cs) && decide (n = (decimalValue (c :: cs) : Int)))) := by
          unfold isDecimalInt
          split
          · rename_i heq; exact absurd (List.cons.inj heq).1 h1
          · rename_i heq; exact absurd (List.cons.inj heq).1 h2
          · rfl
        rw [hm]
        simp [inInt64]

/-! ## Fields and Split -/

theorem Fields_run_append (a : List Char) (ha : a ≠ [])
    (hs : ∀ c ∈ a, isSpace c = false) (rest : List Char) (hr : atFieldEnd rest = true) :
    Fields (a ++ rest) = a :: Fields rest := by
  induction a with
  | nil => exact absurd rfl ha
  | cons c cs ih =>
    have hc : isSpace c = false := hs c (by simp)
    cases cs with
    | nil =>
      simp [Fields, hc, hr]
    | cons d ds =>
      have hd : isSpace d = false := hs d (by simp)
      have ih1 := ih (by simp) (fun x hx => hs x (List.mem_cons_of_mem _ hx))
      simp only [List.cons_append] at ih1 ⊢
      rw [Fields]
      simp only [hc, Bool.false_eq_true, if_false, atFieldEnd, hd]
      rw [ih1]

theorem Fields_spec (s : List Char) :
    ∀ f ∈ Fields s, f ≠ [] ∧ ∀ c ∈ f, isSpace c = false := by
  induction s with
  | nil => intro f hf; simp [Fields] at hf
  | cons c cs ih =>
    intro f hf
    rw [Fields] at hf
    by_cases hc : isSpace c = true
    · simp only [hc, if_true] at hf
      exact ih f hf
    · have hc0 : isSpace c = false := by simpa using hc
      simp only [hc0, Bool.false_eq_true, if_false] at hf
      by_cases he : atFieldEnd cs = true
      · simp only [he, if_true] at hf
        rcases List.mem_cons.mp hf with rfl | hf
        · exact ⟨by simp, by intro x hx; simp at hx; rw [hx]; exact hc0⟩
        · exact ih f hf
      · simp only [he, if_false] at hf
        rcases hF : Fields cs with _ | ⟨g, gs⟩
        · rw [hF] at hf
          simp at hf
          subst hf
          exact ⟨by simp, by intro x hx; simp at hx; rw [hx]; exact hc0⟩
        · rw [hF] at hf ih
          simp only [Bool.false_eq_true, if_false] at hf
          rcases List.mem_cons.mp hf with rfl | hf
          · refine ⟨by simp, ?_⟩
            intro x hx
            rcases List.mem_cons.mp hx with rfl | hx
            · exact hc0
            · exact (ih g (by simp)).2 x hx
          · exact ih f (List.mem_cons_of_mem _ hf)

theorem SplitComma_ne_nil (s : List Char) : SplitComma s ≠ [] := by
  cases s with
  | nil => simp [SplitComma]
  | cons c cs =>
    rw [SplitComma]
    split_ifs
    · simp
    · split <;> simp

theorem SplitComma_noComma (a : List Char) (ha : ∀ c ∈ a, c ≠ ',') : SplitComma a = [a] := by
  induction a with
  | nil => rfl
  | cons c cs ih =>
    have hc : c ≠ ',' := ha c (by simp)
    rw [SplitComma]
    simp only [hc, if_false]
    rw [ih (fun x hx => ha x (List.mem_cons_of_mem _ hx))]

theorem SplitComma_append (a b : List Char) (ha : ∀ c ∈ a, c ≠ ',') :
    SplitComma (a ++ ',' :: b) = a :: SplitComma b := by
  induction a with
  | nil => simp [SplitComma]
  | cons c cs ih =>
    have hc : c ≠ ',' := ha c (by simp)
    simp only [List.cons_append]
    rw [SplitComma]
    simp only [hc, if_false]
    rw [ih (fun x hx => ha x (List.mem_cons_of_mem _ hx))]

/-! ## The subscript rewrite -/

theorem texsubScan_false_cons (c : Char) (cs : List Char) :
    texsubScan false (c :: cs) =
      if c = '_' ∧ startsWithDigit cs = true then subOpen ++ texsubScan true cs
      else c :: texsubScan false cs := by
  rw [texsubScan]
  by_cases h : c = '_' ∧ startsWithDigit cs = true
  · obtain ⟨h1, h2⟩ := h
    simp [h1, h2]
  · simp only [h, if_false]
    have : (decide (c = '_') && startsWithDigit cs) = false := by
      by_cases h1 : c = '_'
      · simp only [h1, true_and] at h
        simp [h1, h]
      · simp [h1]
    simp [this]

theorem texsubScan_true_stop (rest : List Char) (hr : startsWithDigit rest = false) :
    texsubScan true rest = subClose ++ texsubScan false rest := by
  cases rest with
  | nil => simp [texsubScan]
  | cons c cs =>
    have hc : isDigit c = false := by simpa [startsWithDigit] using hr
    rw [texsubScan, texsubScan]
    simp [hc]

theorem texsubScan_true_digits (ds rest : List Char) (hd : ∀ c ∈ ds, isDigit c = true)
    (hr : startsWithDigit rest = false) :
    texsubScan true (ds ++ rest) = ds ++ (subClose ++ texsubScan false rest) := by
  induction ds with
  | nil => simpa using texsubScan_true_stop rest hr
  | cons d ds ih =>
    have h1 : isDigit d = true := hd d (by simp)
    simp only [List.cons_append]
    rw [texsubScan]
    simp only [h1, Bool.and_self, if_true]
    rw [ih (fun x hx => hd x (List.mem_cons_of_mem _ hx))]

theorem digit_run_split (cs : List Char) :
    ∃ ds rest : List Char, cs = ds ++ rest ∧ (∀ c ∈ ds, isDigit c = true) ∧
      startsWithDigit rest = false ∧ rest.length ≤ cs.length ∧
      (startsWithDigit cs = true → ds ≠ []) := by
  induction cs with
  | nil => exact ⟨[], [], rfl, by simp, rfl, le_refl _, by simp [startsWithDigit]⟩
  | cons c cs ih =>
    by_cases hc : isDigit c = true
    · obtain ⟨ds, rest, e, hd, hr, hl, _⟩ := ih
      refine ⟨c :: ds, rest, by simp [e], ?_, hr, by simp; omega, by simp⟩
      intro x hx
      rcases List.mem_cons.mp hx with rfl | hx
      · exact hc
      · exact hd x hx
    · refine ⟨[], c :: cs, rfl, by simp, ?_, le_refl _, ?_⟩
      · simpa [startsWithDigit] using hc
      · intro h; simp [startsWithDigit] at h; exact absurd h hc

theorem SubRewrite_texsubScan :
    ∀ (n : Nat) (s : List Char), s.length ≤ n → SubRewrite s (texsubScan false s) := by
  intro n
  induction n with
  | zero =>
    intro s hs
    have : s = [] := List.length_eq_zero.mp (by omega)
    subst this
    exact SubRewrite.done
  | succ n ih =>
    intro s hs
    cases s with
    | nil => exact SubRewrite.done
    | cons c cs =>
      rw [texsubScan_false_cons]
      by_cases h : c = '_' ∧ startsWithDigit cs = true
      · simp only [h, and_self, if_true]
        obtain ⟨ds, rest, e, hd, hr, hl, hne⟩ := digit_run_split cs
        have hrec := ih rest (by simp at hs; omega)
        have hne1 := hne h.2
        obtain ⟨hc, _⟩ := h
        subst hc
        subst e
        rw [texsubScan_true_digits ds rest hd hr]
        exact SubRewrite.sub ds rest _ hne1 hd hr hrec
      · simp only [h, if_false]
        exact SubRewrite.keep c cs _ h (ih cs (by simp at hs; omega))

theorem startsWithDigit_append (ds rest : List Char) (hne : ds ≠ [])
    (hd : ∀ c ∈ ds, isDigit c = true) : startsWithDigit (ds ++ rest) = true := by
  cases ds with
  | nil => exact absurd rfl hne
  | cons d ds => simpa [startsWithDigit] using hd d (by simp)

theorem SubRewrite_unique (s out : GoString) (h : SubRewrite s out) :
    out = texsubScan false s := by
  induction h with
  | done => rfl
  | sub ds rest out hne hd hr _ ih =>
    rw [texsubScan_false_cons]
    simp only [startsWithDigit_append ds rest hne hd, and_self, if_true]
    rw [texsubScan_true_digits ds rest hd hr, ih]
  | keep c rest out hc _ ih =>
    rw [texsubScan_false_cons]
    simp only [hc, if_false]
    rw [ih]

theorem noSubscript_append (a b : List Char) (ha : ∀ c ∈ a, c ≠ '_')
    (hb : noSubscript b = true) : noSubscript (a ++ b) = true := by
  induction a with
  | nil => simpa using hb
  | cons c cs ih =>
    have hc : c ≠ '_' := ha c (by simp)
    simp only [List.cons_append, noSubscript, hc, decide_False, Bool.false_and, Bool.not_false,
      Bool.true_and]
    exact ih (fun x hx => ha x (List.mem_cons_of_mem _ hx))

theorem startsWithDigit_texsubScan (cs : List Char) (h : startsWithDigit cs = false) :
    startsWithDigit (texsubScan false cs) = false := by
  cases cs with
  | nil => simp [texsubScan, startsWithDigit]
  | cons d ds =>
    have hd : isDigit d = false := by simpa [startsWithDigit] using h
    rw [texsubScan_false_cons]
    split_ifs
    · rfl
    · simpa [startsWithDigit] using hd

theorem noSubscript_texsubScan (s : List Char) :
    ∀ b : Bool, noSubscript (texsubScan b s) = true := by
  induction s with
  | nil => intro b; cases b <;> decide
  | cons c cs ih =>
    have hfalse : noSubscript (texsubScan false (c :: cs)) = true := by
      rw [texsubScan_false_cons]
      by_cases h : c = '_' ∧ startsWithDigit cs = true
      · simp only [h, and_self, if_true]
        exact noSubscript_append _ _ (by decide) (ih true)
      · simp only [h, if_false, noSubscript, ih false, Bool.and_true, Bool.not_eq_true',
          Bool.and_eq_false_imp, decide_eq_true_eq]
        intro hc
        have : startsWithDigit cs = false := by
          by_contra hcon
          exact h ⟨hc, by simpa using hcon⟩
        exact startsWithDigit_texsubScan cs this
    intro b
    cases b with
    | false => exact hfalse
    | true =>
      by_cases hd : isDigit c = true
      · rw [texsubScan]
        simp only [hd, Bool.and_self, if_true, noSubscript, ih true, Bool.and_true,
          Bool.not_eq_true', Bool.and_eq_false_imp, decide_eq_true_eq]
        rintro rfl
        exact absurd hd (by decide)
      · have hs : startsWithDigit (c :: cs) = false := by simpa [startsWithDigit] using hd
        rw [texsubScan_true_stop _ hs]
        exact noSubscript_append _ _ (by decide) hfalse

theorem texsubScan_of_noSubscript (s : List Char) (h : noSubscript s = true) :
    texsubScan false s = s := by
  induction s with
  | nil => rfl
  | cons c cs ih =>
    simp only [noSubscript, Bool.and_eq_true, Bool.not_eq_true', Bool.and_eq_false_imp,
      decide_eq_true_eq] at h
    rw [texsubScan_false_cons]
    have : ¬ (c = '_' ∧ startsWithDigit cs = true) := by
      rintro ⟨h1, h2⟩
      have := h.1 h1
      rw [h2] at this
      exact absurd this (by decide)
    simp only [this, if_false]
    rw [ih h.2]

theorem texsubReplaceAll_idempotent (s : GoString) :
    texsubReplaceAll (texsubReplaceAll s) = texsubReplaceAll s :=
  texsubScan_of_noSubscript _ (noSubscript_texsubScan s false)

theorem texsubScan_noSpace (s : List Char) (hs : ∀ c ∈ s, isSpace c = false) :
    ∀ (b : Bool), ∀ c ∈ texsubScan b s, isSpace c = false := by
  have hopen : ∀ c ∈ subOpen, isSpace c = false := by decide
  have hclose : ∀ c ∈ subClose, isSpace c = false := by decide
  induction s with
  | nil =>
    intro b c hc
    cases b
    · simp [texsubScan] at hc
    · exact hclose c (by simpa [texsubScan] using hc)
  | cons d ds ih =>
    have hd : isSpace d = false := hs d (by simp)
    have ih1 := ih (fun x hx => hs x (List.mem_cons_of_mem _ hx))
    have hfalse : ∀ c ∈ texsubScan false (d :: ds), isSpace c = false := by
      intro c hc
      rw [texsubScan_false_cons] at hc
      split_ifs at hc
      · rcases List.mem_append.mp hc with h | h
        · exact hopen c h
        · exact ih1 true c h
      · rcases List.mem_cons.mp hc with rfl | h
        · exact hd
        · exact ih1 false c h
    intro b
    cases b with
    | false => exact hfalse
    | true =>
      intro c hc
      by_cases hdig : isDigit d = true
      · rw [texsubScan] at hc
        simp only [hdig, Bool.and_self, if_true] at hc
        rcases List.mem_cons.mp hc with rfl | h
        · exact hd
        · exact ih1 true c h
      · have hsd : startsWithDigit (d :: ds) = false := by simpa [startsWithDigit] using hdig
        rw [texsubScan_true_stop _ hsd] at hc
        rcases List.mem_append.mp hc with h | h
        · exact hclose c h
        · exact hfalse c h

theorem texsubScan_ne_nil (s : List Char) (hs : s ≠ []) : texsubScan false s ≠ [] := by
  cases s with
  | nil => exact absurd rfl hs
  | cons c cs =>
    rw [texsubScan_false_cons]
    split_ifs <;> simp [subOpen]

/-! ## parseCaption and ParseCaptions -/

theorem parseCaption_ok (t s c x y : GoString) (more : List GoString) (sz px py : Int)
    (hs : Atoi s = (sz, none)) (hc : SplitComma c = x :: y :: more)
    (hx : Atoi x = (px, none)) (hy : Atoi y = (py, none)) :
    parseCaption [t, s, c] = Run.ret (⟨texsubReplaceAll t, sz, ⟨px, py⟩⟩, none) := by
  simp [parseCaption, hs, hc, hx, hy]

theorem parseCaption_bad_size (t s c : GoString) (n : Int) (e : NumError)
    (hs : Atoi s = (n, some e)) :
    parseCaption [t, s, c] = Run.ret (Caption.zero, some CaptionError.malformedCaption) := by
  simp [parseCaption, hs]

theorem parseCaption_inv (t s c : GoString) (cap : Caption)
    (h : parseCaption [t, s, c] = Run.ret (cap, none)) :
    ∃ (sz px py : Int) (x y : GoString) (more : List GoString),
      Atoi s = (sz, none) ∧ SplitComma c = x :: y :: more ∧ Atoi x = (px, none) ∧
      Atoi y = (py, none) ∧ cap = ⟨texsubReplaceAll t, sz, ⟨px, py⟩⟩ := by
  rcases hs : Atoi s with ⟨sz, _ | e⟩
  · rcases hc : SplitComma c with _ | ⟨x, _ | ⟨y, more⟩⟩
    · simp [parseCaption, hs, hc] at h
    · rcases hx : Atoi x with ⟨px, _ | e⟩
      · simp [parseCaption, hs, hc, hx] at h
      · simp [parseCaption, hs, hc, hx] at h
    · rcases hx : Atoi x with ⟨px, _ | e⟩
      · rcases hy : Atoi y with ⟨py, _ | e⟩
        · rw [parseCaption_ok t s c x y more sz px py hs hc hx hy] at h
          simp only [Run.ret.injEq, Prod.mk.injEq, and_true] at h
          exact ⟨sz, px, py, x, y, more, rfl, rfl, hx, hy, h.symm⟩
        · simp [parseCaption, hs, hc, hx, hy] at h
      · simp [parseCaption, hs, hc, hx] at h
  · rw [parseCaption_bad_size t s c sz e hs] at h
    simp at h

theorem parseCaption_panics_iff (t s c : GoString) (sz : Int) (hs : Atoi s = (sz, none)) :
    parseCaption [t, s, c] = Run.panicked ↔
      ¬ ∃ (x y : GoString) (more : List GoString),
        SplitComma c = x :: y :: more ∧ (Atoi x).2 = none ∧ (Atoi y).2 = none := by
  rcases hc : SplitComma c with _ | ⟨x, _ | ⟨y, more⟩⟩
  · simp [parseCaption, hs, hc]
  · rcases hx : Atoi x with ⟨px, _ | e⟩ <;> simp [parseCaption, hs, hc, hx]
  · rcases hx : Atoi x with ⟨px, _ | e⟩
    · rcases hy : Atoi y with ⟨py, _ | e⟩
      · simp [parseCaption, hs, hc, hx, hy]
      · simp [parseCaption, hs, hc, hx, hy]
    · simp [parseCaption, hs, hc, hx]

/-! ## Captions: the claims -/

theorem isDigit_not_sep (c : Char) (h : isDigit c = true) :
    isSpace c = false ∧ c ≠ ',' ∧ c ≠ '+' ∧ c ≠ '-' := by
  have h1 : 48 ≤ c.toNat ∧ c.toNat ≤ 57 := by
    simpa [isDigit] using h
  refine ⟨?_, ?_, ?_, ?_⟩
  · simp only [isSpace, Bool.or_eq_false_iff, decide_eq_false_iff_not]
    omega
  · rintro rfl; revert h1; decide
  · rintro rfl; revert h1; decide
  · rintro rfl; revert h1; decide

theorem Atoi_ok_noComma (s : GoString) (n : Int) (h : Atoi s = (n, none)) :
    ∀ c ∈ s, c ≠ ',' := by
  intro c hc
  rcases (Atoi_ok s n h).2 c hc with h1 | h1 | h1
  · exact (isDigit_not_sep c h1).2.1
  · rw [h1]; decide
  · rw [h1]; decide

theorem Itoa_chars (n : Int) : Itoa n ≠ [] ∧ ∀ c ∈ Itoa n, isSpace c = false ∧ c ≠ ',' := by
  unfold Itoa
  have hd : ∀ c ∈ natDigits 20 n.natAbs, isSpace c = false ∧ c ≠ ',' := fun c hc =>
    ⟨(isDigit_not_sep c (natDigits_all_digit _ _ c hc)).1,
      (isDigit_not_sep c (natDigits_all_digit _ _ c hc)).2.1⟩
  split_ifs
  · refine ⟨by simp, ?_⟩
    intro c hc
    rcases List.mem_cons.mp hc with rfl | hc
    · exact ⟨by decide, by decide⟩
    · exact hd c hc
  · exact ⟨natDigits_ne_nil 19 _, hd⟩

theorem Fields_three (a b c : List Char) (ha : a ≠ []) (hb : b ≠ []) (hc : c ≠ [])
    (sa : ∀ x ∈ a, isSpace x = false) (sb : ∀ x ∈ b, isSpace x = false)
    (sc : ∀ x ∈ c, isSpace x = false) :
    Fields (a ++ ' ' :: (b ++ ' ' :: c)) = [a, b, c] := by
  have hsp : isSpace ' ' = true := by decide
  have skip : ∀ r : List Char, Fields (' ' :: r) = Fields r := by
    intro r; rw [Fields]; simp [hsp]
  rw [Fields_run_append a ha sa _ (by simp [atFieldEnd, hsp]), skip,
    Fields_run_append b hb sb _ (by simp [atFieldEnd, hsp]), skip]
  have := Fields_run_append c hc sc [] rfl
  simp only [List.append_nil] at this
  rw [this]
  rfl

theorem parseCaption_serialize (c : Caption) (hc : c.Parsed) :
    Fields (serializeCaption c) =
        [c.Text, Itoa c.Size, Itoa c.Position.X ++ ',' :: Itoa c.Position.Y] ∧
      parseCaption (Fields (serializeCaption c)) = Run.ret (c, none) := by
  obtain ⟨h1, h2, h3, h4, h5, h6⟩ := hc
  have hF : Fields (serializeCaption c) =
      [c.Text, Itoa c.Size, Itoa c.Position.X ++ ',' :: Itoa c.Position.Y] := by
    unfold serializeCaption
    apply Fields_three _ _ _ h1 (Itoa_chars _).1 (by simp) h2
      (fun x hx => ((Itoa_chars _).2 x hx).1)
    intro x hx
    rcases List.mem_append.mp hx with hx | hx
    · exact ((Itoa_chars _).2 x hx).1
    · rcases List.mem_cons.mp hx with rfl | hx
      · decide
      · exact ((Itoa_chars _).2 x hx).1
  refine ⟨hF, ?_⟩
  rw [hF]
  have hsplit : SplitComma (Itoa c.Position.X ++ ',' :: Itoa c.Position.Y) =
      Itoa c.Position.X :: Itoa c.Position.Y :: [] := by
    rw [SplitComma_append _ _ (fun x hx => ((Itoa_chars _).2 x hx).2),
      SplitComma_noComma _ (fun x hx => ((Itoa_chars _).2 x hx).2)]
  rw [parseCaption_ok _ _ _ _ _ [] c.Size c.Position.X c.Position.Y (Atoi_Itoa _ h4) hsplit
    (Atoi_Itoa _ h5) (Atoi_Itoa _ h6)]
  have : texsubReplaceAll c.Text = c.Text := texsubScan_of_noSubscript _ h3
  rw [this]

theorem parseCaption_Parsed (line t s c : GoString) (cap : Caption)
    (hf : Fields line = [t, s, c]) (h : parseCaption [t, s, c] = Run.ret (cap, none)) :
    cap.Parsed := by
  obtain ⟨sz, px, py, x, y, more, hs, _, hx, hy, rfl⟩ := parseCaption_inv t s c cap h
  have ht := Fields_spec line t (by rw [hf]; simp)
  exact ⟨texsubScan_ne_nil t ht.1, texsubScan_noSpace t ht.2 false,
    noSubscript_texsubScan t false, (Atoi_ok s sz hs).1, (Atoi_ok x px hx).1,
    (Atoi_ok y py hy).1⟩

theorem length_three {α : Type} (l : List α) (h : l.length = 3) :
    ∃ a b c, l = [a, b, c] := by
  match l, h with
  | [a, b, c], _ => exact ⟨a, b, c, rfl⟩

theorem parseCaptionsLoop_Parsed (lines : List GoString) :
    ∀ (acc out : List Caption), parseCaptionsLoop lines acc = Run.ret out →
      ∃ caps, out = acc ++ caps ∧ ∀ c ∈ caps, c.Parsed := by
  induction lines with
  | nil =>
    intro acc out h
    simp only [parseCaptionsLoop, Run.ret.injEq] at h
    exact ⟨[], by simp [h], by simp⟩
  | cons l ls ih =>
    intro acc out h
    rw [parseCaptionsLoop] at h
    by_cases h3 : (Fields l).length = 3
    · obtain ⟨t, s, c, hf⟩ := length_three _ h3
      simp only [h3, if_true] at h
      rw [hf] at h
      rcases hp : parseCaption [t, s, c] with ⟨cap, _ | e⟩ | _
      · rw [hp] at h
        obtain ⟨caps, e1, e2⟩ := ih _ _ h
        refine ⟨cap :: caps, by simp [e1], ?_⟩
        intro x hx
        rcases List.mem_cons.mp hx with rfl | hx
        · exact parseCaption_Parsed l t s c _ hf hp
        · exact e2 x hx
      · rw [hp] at h
        exact ih _ _ h
      · rw [hp] at h
        simp at h
    · simp only [h3, if_false] at h
      exact ih _ _ h

theorem parseCaptionsLoop_serialize (caps : List Caption) (hc : ∀ c ∈ caps, c.Parsed) :
    ∀ acc : List Caption,
      parseCaptionsLoop (caps.map serializeCaption) acc = Run.ret (acc ++ caps) := by
  induction caps with
  | nil => intro acc; simp [parseCaptionsLoop]
  | cons c cs ih =>
    intro acc
    obtain ⟨hF, hP⟩ := parseCaption_serialize c (hc c (by simp))
    simp only [List.map_cons]
    rw [parseCaptionsLoop]
    have h3 : (Fields (serializeCaption c)).length = 3 := by rw [hF]; rfl
    simp only [h3, if_true, hP]
    rw [ih (fun x hx => hc x (List.mem_cons_of_mem _ hx))]
    simp

theorem parseCaptionsLoop_filter (lines : List GoString)
    (hcoords : ∀ l ∈ lines, noMalformedCoords l = true) :
    ∀ acc : List Caption, ∃ caps : List Caption,
      parseCaptionsLoop lines acc = Run.ret (acc ++ caps) ∧
      List.Forall₂ (fun l cap => parseCaption (Fields l) = Run.ret (cap, none))
        (lines.filter wellFormedLine) caps := by
  induction lines with
  | nil => intro acc; exact ⟨[], by simp [parseCaptionsLoop], by simp⟩
  | cons l ls ih =>
    intro acc
    have ih1 := ih (fun x hx => hcoords x (List.mem_cons_of_mem _ hx))
    have hl := hcoords l (by simp)
    rw [parseCaptionsLoop]
    by_cases h3 : (Fields l).length = 3
    · obtain ⟨t, s, c, hf⟩ := length_three _ h3
      simp only [h3, if_true]
      have hwc : wellFormedCoords c = true := by simpa [noMalformedCoords, hf] using hl
      unfold wellFormedCoords at hwc
      rcases hsp : SplitComma c with _ | ⟨x, _ | ⟨y, _ | ⟨z, more⟩⟩⟩
      · rw [hsp] at hwc; simp at hwc
      · rw [hsp] at hwc; simp at hwc
      · rw [hsp] at hwc
        simp only [Bool.and_eq_true, Option.isNone_iff_eq_none] at hwc
        rcases hs : Atoi s with ⟨sz, _ | e⟩
        · have hp := parseCaption_ok t s c x y [] sz (Atoi x).1 (Atoi y).1 hs hsp
            (by rw [← hwc.1]) (by rw [← hwc.2])
          obtain ⟨caps, e1, e2⟩ := ih1 (acc ++ [⟨texsubReplaceAll t, sz, ⟨(Atoi x).1, (Atoi y).1⟩⟩])
          refine ⟨(⟨texsubReplaceAll t, sz, ⟨(Atoi x).1, (Atoi y).1⟩⟩ : Caption) :: caps, ?_, ?_⟩
          · rw [hf, hp]
            simp only
            rw [e1]
            simp
          · have hw : wellFormedLine l = true := by simp [wellFormedLine, hf, hs]
            rw [List.filter_cons_of_pos hw]
            exact List.Forall₂.cons (by rw [hf]; exact hp) e2
        · have hp := parseCaption_bad_size t s c sz e hs
          obtain ⟨caps, e1, e2⟩ := ih1 acc
          refine ⟨caps, ?_, ?_⟩
          · rw [hf, hp]
            simp only
            exact e1
          · have hw : ¬ (wellFormedLine l = true) := by simp [wellFormedLine, hf, hs]
            rw [List.filter_cons_of_neg hw]
            exact e2
      · rw [hsp] at hwc; simp at hwc
    · simp only [h3, if_false]
      obtain ⟨caps, e1, e2⟩ := ih1 acc
      refine ⟨caps, e1, ?_⟩
      have hw : ¬ (wellFormedLine l = true) := by
        unfold wellFormedLine
        split
        · rename_i heq; rw [heq] at h3; simp at h3
        · simp
      rw [List.filter_cons_of_neg hw]
      exact e2

/-- C1: a caption line whose three fields are `t`, `s` and `x,y`, with `s`, `x`
and `y` the decimal integers `sz`, `px`, `py`, yields exactly one
caption with that size and position, whose text is `t` with every underscore
followed by digits rewritten to a `<sub>..</sub>` span and every other
character kept (the rewrite relation of the specification holds, and determines
the text). -/
theorem parseCaption_wellFormed_line (line t s x y : GoString) (sz px py : Int)
    (hf : Fields line = [t, s, x ++ ',' :: y])
    (hsz : isDecimalInt s sz = true) (hpx : isDecimalInt x px = true)
    (hpy : isDecimalInt y py = true) :
    parseCaption (Fields line) = Run.ret (⟨texsubReplaceAll t, sz, ⟨px, py⟩⟩, none) ∧
      ParseCaptions [line] = Run.ret [⟨texsubReplaceAll t, sz, ⟨px, py⟩⟩] ∧
      SubRewrite t (texsubReplaceAll t) ∧
      (∀ out : GoString, SubRewrite t out → out = texsubReplaceAll t) := by
  have hs := (Atoi_eq_iff s sz).mpr hsz
  have hx := (Atoi_eq_iff x px).mpr hpx
  have hy := (Atoi_eq_iff y py).mpr hpy
  have hsplit : SplitComma (x ++ ',' :: y) = x :: y :: [] := by
    rw [SplitComma_append _ _ (Atoi_ok_noComma x px hx),
      SplitComma_noComma _ (Atoi_ok_noComma y py hy)]
  have hp := parseCaption_ok t s _ x y [] sz px py hs hsplit hx hy
  refine ⟨by rw [hf]; exact hp, ?_, SubRewrite_texsubScan _ t (le_refl _),
    fun out h => SubRewrite_unique t out h⟩
  unfold ParseCaptions
  rw [parseCaptionsLoop]
  have h3 : (Fields line).length = 3 := by rw [hf]; rfl
  simp only [h3, if_true]
  rw [hf, hp]
  simp [parseCaptionsLoop]

/-- Witness for C1: the documented line `H_1 84 500,800`, and a token that
contains both `C_1` and `C_2`. -/
theorem parseCaption_wellFormed_line_witness :
    ParseCaptions ["H_1 84 500,800".toList] =
        Run.ret [⟨"H<sub>1</sub>".toList, 84, ⟨500, 800⟩⟩] ∧
      ParseCaptions ["C_1C_2 12 3,4".toList] =
        Run.ret [⟨"C<sub>1</sub>C<sub>2</sub>".toList, 12, ⟨3, 4⟩⟩] :=
  ⟨(parseCaption_wellFormed_line "H_1 84 500,800".toList "H_1".toList "84".toList
      "500".toList "800".toList 84 500 800 (by decide) (by decide) (by decide)
      (by decide)).2.1.trans (by decide),
    (parseCaption_wellFormed_line "C_1C_2 12 3,4".toList "C_1C_2".toList "12".toList
      "3".toList "4".toList 12 3 4 (by decide) (by decide) (by decide)
      (by decide)).2.1.trans (by decide)⟩

/-- C2: when no three-field line has malformed coordinates, `ParseCaptions`
returns (it does not panic) one caption for each well-formed line, in the order
of the lines, and nothing for the other lines; the number of captions is the
number of well-formed lines. -/
theorem ParseCaptions_skips_malformed_lines (lines : List GoString)
    (hcoords : ∀ l ∈ lines, noMalformedCoords l = true) :
    ∃ caps : List Caption,
      ParseCaptions lines = Run.ret caps ∧
      caps.length = lines.countP wellFormedLine ∧
      List.Forall₂ (fun l cap => parseCaption (Fields l) = Run.ret (cap, none))
        (lines.filter wellFormedLine) caps := by
  obtain ⟨caps, e1, e2⟩ := parseCaptionsLoop_filter lines hcoords []
  refine ⟨caps, by simpa [ParseCaptions] using e1, ?_, e2⟩
  rw [List.countP_eq_length_filter, e2.length_eq]

/-- Witness for C2: a file with a good line, a line of two fields, a blank
line, a line whose size is not an integer, a line of four fields and another
good line. -/
theorem ParseCaptions_skips_malformed_lines_witness :
    ∃ caps : List Caption,
      ParseCaptions ["H_1 84 500,800".toList, "H_2 84".toList, [], "H_3 big 1,2".toList,
        "a 1 2 3".toList, "C_2 84 2200,1600".toList] = Run.ret caps ∧
      caps.length = List.countP wellFormedLine ["H_1 84 500,800".toList, "H_2 84".toList, [],
        "H_3 big 1,2".toList, "a 1 2 3".toList, "C_2 84 2200,1600".toList] ∧
      List.Forall₂ (fun l cap => parseCaption (Fields l) = Run.ret (cap, none))
        (List.filter wellFormedLine ["H_1 84 500,800".toList, "H_2 84".toList, [],
          "H_3 big 1,2".toList, "a 1 2 3".toList, "C_2 84 2200,1600".toList]) caps :=
  ParseCaptions_skips_malformed_lines _ (by decide)

/-- C3 (a missed case): the coordinate field `1,2,3` has three components, yet
`parseCaption` returns the caption at `(1, 2)` and `ParseCaptions` keeps it; the
fields `1` and `1,b` do make `parseCaption` panic. -/
theorem parseCaption_accepts_extra_coordinate :
    parseCaption ["a".toList, "1".toList, "1,2,3".toList] =
        Run.ret (⟨"a".toList, 1, ⟨1, 2⟩⟩, none) ∧
      ParseCaptions ["a 1 1,2,3".toList] = Run.ret [⟨"a".toList, 1, ⟨1, 2⟩⟩] ∧
      wellFormedCoords "1,2,3".toList = false ∧
      parseCaption ["a".toList, "1".toList, "1".toList] = Run.panicked ∧
      parseCaption ["a".toList, "1".toList, "1,b".toList] = Run.panicked := by
  decide

/-- C9: the captions parsed from a file are parsed again unchanged, in the same
order, from their lines `<text> <size> <x>,<y>`; a text written with the
`_digits` shorthand and the same text written with the markup give the same
caption, and a text without shorthand is kept as it is. -/
theorem ParseCaptions_roundtrip (lines : List GoString) (caps : List Caption)
    (h : ParseCaptions lines = Run.ret caps) :
    ParseCaptions (caps.map serializeCaption) = Run.ret caps ∧
      (∀ t s c : GoString,
        parseCaption [texsubReplaceAll t, s, c] = parseCaption [t, s, c]) ∧
      (∀ t : GoString, noSubscript t = true → texsubReplaceAll t = t) := by
  refine ⟨?_, ?_, fun t ht => texsubScan_of_noSubscript t ht⟩
  · obtain ⟨caps1, e1, e2⟩ := parseCaptionsLoop_Parsed lines [] caps h
    simp only [List.nil_append] at e1
    subst e1
    simpa [ParseCaptions] using parseCaptionsLoop_serialize caps e2 []
  · intro t s c
    simp only [parseCaption, List.getElem?_cons_zero, List.getElem?_cons_succ,
      texsubReplaceAll_idempotent]

/-- Witness for C9: the same two captions written with the shorthand and with
the markup. -/
theorem ParseCaptions_roundtrip_witness :
    ParseCaptions (List.map serializeCaption
        [⟨"H<sub>1</sub>".toList, 84, ⟨500, 800⟩⟩, ⟨"C<sub>2</sub>".toList, 84, ⟨-2200, 1600⟩⟩]) =
        Run.ret [⟨"H<sub>1</sub>".toList, 84, ⟨500, 800⟩⟩,
          ⟨"C<sub>2</sub>".toList, 84, ⟨-2200, 1600⟩⟩] ∧
      ParseCaptions ["H<sub>1</sub> 84 500,800".toList, "C<sub>2</sub> 84 -2200,1600".toList] =
        ParseCaptions ["H_1 84 500,800".toList, "C_2 84 -2200,1600".toList] :=
  ⟨(ParseCaptions_roundtrip ["H_1 84 500,800".toList, "C_2 84 -2200,1600".toList]
      [⟨"H<sub>1</sub>".toList, 84, ⟨500, 800⟩⟩, ⟨"C<sub>2</sub>".toList, 84, ⟨-2200, 1600⟩⟩]
      (by decide)).1, by decide⟩

/-! ## Images, cropImage and drawCaption -/

theorem Set_Rect (p : Image) (x y : Int) (c : Color) : (p.Set x y c).Rect = p.Rect := by
  unfold Image.Set
  split_ifs <;> rfl

theorem Set_pix (p : Image) (x y : Int) (c : Color) (x1 y1 : Int) :
    (p.Set x y c).pix x1 y1 =
      if x1 = x ∧ y1 = y ∧ (Point.mk x y).In p.Rect = true then c else p.pix x1 y1 := by
  unfold Image.Set
  by_cases h : (Point.mk x y).In p.Rect = true
  · simp [h]
  · simp [h]

theorem foldl_Set_row (f : Int → Color) (h : Int) (n : Nat) (p : Image) :
    ((List.range n).foldl (fun (ret : Image) (w : Nat) => ret.Set w h (f w)) p).Rect = p.Rect ∧
      ∀ x y : Int,
        ((List.range n).foldl (fun (ret : Image) (w : Nat) => ret.Set w h (f w)) p).pix x y =
          if y = h ∧ 0 ≤ x ∧ x < n ∧ (Point.mk x h).In p.Rect = true then f x
          else p.pix x y := by
  induction n with
  | zero =>
    refine ⟨rfl, ?_⟩
    intro x y
    have : ¬ (y = h ∧ 0 ≤ x ∧ x < ((0 : Nat) : Int) ∧ (Point.mk x h).In p.Rect = true) := by
      rintro ⟨_, h1, h2, _⟩
      simp at h2
      omega
    simp only [List.range_zero, List.foldl_nil, this, if_false]
  | succ n ih =>
    obtain ⟨ihR, ihP⟩ := ih
    rw [List.range_succ, List.foldl_append]
    simp only [List.foldl_cons, List.foldl_nil]
    refine ⟨by rw [Set_Rect, ihR], ?_⟩
    intro x y
    rw [Set_pix, ihR, ihP]
    by_cases hy : y = h
    · subst hy
      by_cases hx : x = (n : Int)
      · subst hx
        by_cases hin : (Point.mk (n : Int) y).In p.Rect = true
        · have : (0 : Int) ≤ n ∧ (n : Int) < ((n + 1 : Nat) : Int) := by
            constructor <;> push_cast <;> omega
          simp [hin, this]
        · simp [hin]
      · have e1 : ¬ (x = (n : Int) ∧ y = y ∧ (Point.mk (n : Int) y).In p.Rect = true) := by
          rintro ⟨h1, _⟩; exact hx h1
        have e2 : (x < (n : Int)) ↔ (x < ((n + 1 : Nat) : Int)) := by
          push_cast; omega
        simp only [hx, false_and, if_false, true_and, e2]
    · simp [hy]

theorem foldl_Set_col (f : Int → Color) (w : Int) (n : Nat) (p : Image) :
    ((List.range n).foldl (fun (ret : Image) (h : Nat) => ret.Set w h (f h)) p).Rect = p.Rect ∧
      ∀ x y : Int,
        ((List.range n).foldl (fun (ret : Image) (h : Nat) => ret.Set w h (f h)) p).pix x y =
          if x = w ∧ 0 ≤ y ∧ y < n ∧ (Point.mk w y).In p.Rect = true then f y
          else p.pix x y := by
  induction n with
  | zero =>
    refine ⟨rfl, ?_⟩
    intro x y
    have : ¬ (x = w ∧ 0 ≤ y ∧ y < ((0 : Nat) : Int) ∧ (Point.mk w y).In p.Rect = true) := by
      rintro ⟨_, h1, h2, _⟩
      simp at h2
      omega
    simp only [List.range_zero, List.foldl_nil, this, if_false]
  | succ n ih =>
    obtain ⟨ihR, ihP⟩ := ih
    rw [List.range_succ, List.foldl_append]
    simp only [List.foldl_cons, List.foldl_nil]
    refine ⟨by rw [Set_Rect, ihR], ?_⟩
    intro x y
    rw [Set_pix, ihR, ihP]
    by_cases hx : x = w
    · subst hx
      by_cases hy : y = (n : Int)
      · subst hy
        by_cases hin : (Point.mk x (n : Int)).In p.Rect = true
        · have : (0 : Int) ≤ n ∧ (n : Int) < ((n + 1 : Nat) : Int) := by
            constructor <;> push_cast <;> omega
          simp [hin, this]
        · simp [hin]
      · have e1 : ¬ (x = x ∧ y = (n : Int) ∧ (Point.mk x (n : Int)).In p.Rect = true) := by
          rintro ⟨_, h1, _⟩; exact hy h1
        have e2 : (y < (n : Int)) ↔ (y < ((n + 1 : Nat) : Int)) := by
          push_cast; omega
        simp only [hy, false_and, and_false, if_false, true_and, e2]
    · simp [hx]

theorem nrgbaRow_spec (img : Image) (width : Int) (ret : Image) (h : Int) :
    (nrgbaRow img width ret h).Rect = ret.Rect ∧
      ∀ x y : Int, (nrgbaRow img width ret h).pix x y =
        if y = h ∧ 0 ≤ x ∧ x ≤ width ∧ (Point.mk x h).In ret.Rect = true then img.At x h
        else ret.pix x y := by
  unfold nrgbaRow
  obtain ⟨hR, hP⟩ := foldl_Set_row (fun w => img.At w h) h (width + 1).toNat ret
  refine ⟨hR, ?_⟩
  intro x y
  rw [hP]
  have : (0 ≤ x ∧ x < ((width + 1).toNat : Int)) ↔ (0 ≤ x ∧ x ≤ width) := by omega
  by_cases hy : y = h
  · by_cases hin : (Point.mk x h).In ret.Rect = true
    · simp only [hy, hin, true_and, and_true]
      simp only [this]
    · simp [hin]
  · simp [hy]

theorem nrgbaRows_spec (img : Image) (width : Int) (m : Nat) (ret : Image) :
    ((List.range m).foldl (fun (ret : Image) (h : Nat) => nrgbaRow img width ret h) ret).Rect =
        ret.Rect ∧
      ∀ x y : Int,
        ((List.range m).foldl (fun (ret : Image) (h : Nat) => nrgbaRow img width ret h) ret).pix
            x y =
          if 0 ≤ y ∧ y < m ∧ 0 ≤ x ∧ x ≤ width ∧ (Point.mk x y).In ret.Rect = true
          then img.At x y else ret.pix x y := by
  induction m with
  | zero =>
    refine ⟨rfl, ?_⟩
    intro x y
    have : ¬ (0 ≤ y ∧ y < ((0 : Nat) : Int) ∧ 0 ≤ x ∧ x ≤ width ∧
        (Point.mk x y).In ret.Rect = true) := by
      rintro ⟨h1, h2, _⟩
      simp at h2
      omega
    simp only [List.range_zero, List.foldl_nil, this, if_false]
  | succ m ih =>
    obtain ⟨ihR, ihP⟩ := ih
    rw [List.range_succ, List.foldl_append]
    simp only [List.foldl_cons, List.foldl_nil]
    obtain ⟨rR, rP⟩ := nrgbaRow_spec img width
      ((List.range m).foldl (fun (ret : Image) (h : Nat) => nrgbaRow img width ret h) ret) m
    refine ⟨by rw [rR, ihR], ?_⟩
    intro x y
    rw [rP, ihR, ihP]
    by_cases hy : y = (m : Int)
    · subst hy
      have h1 : (0 : Int) ≤ m ∧ (m : Int) < ((m + 1 : Nat) : Int) ∧ ¬ ((m : Int) < (m : Int)) := by
        refine ⟨?_, ?_, ?_⟩ <;> push_cast <;> omega
      simp only [true_and, h1, false_and, if_false]
    · have e1 : ¬ (y = (m : Int) ∧ 0 ≤ x ∧ x ≤ width ∧ (Point.mk x m).In ret.Rect = true) := by
        rintro ⟨h1, _⟩; exact hy h1
      have e2 : (y < (m : Int)) ↔ (y < ((m + 1 : Nat) : Int)) := by
        push_cast; omega
      simp only [e1, if_false, e2]

theorem NRGBA_spec (img : Image) (hdx : 0 ≤ img.Rect.Dx) (hdy : 0 ≤ img.Rect.Dy) :
    ∃ out : Image, NRGBA img = Run.ret out ∧ out.Rect = img.Rect ∧
      ∀ x y : Int, out.At x y = if 0 ≤ x ∧ 0 ≤ y then img.At x y else Color.zero := by
  unfold NRGBA NewNRGBA
  have hneg : ¬ (img.Rect.Dx < 0 ∨ img.Rect.Dy < 0) := by omega
  simp only [hneg, if_false]
  obtain ⟨hR, hP⟩ := nrgbaRows_spec img img.Rect.Max.X (img.Rect.Max.Y + 1).toNat
    { Rect := img.Rect, pix := fun _ _ => Color.zero }
  dsimp only at hR hP
  refine ⟨_, rfl, hR, ?_⟩
  intro x y
  have hAt : ∀ q : Image, q.Rect = img.Rect →
      q.At x y = if (Point.mk x y).In img.Rect = true then q.pix x y else Color.zero := by
    intro q hq
    unfold Image.At
    rw [hq]
  rw [hAt _ hR, hP]
  by_cases hin : (Point.mk x y).In img.Rect = true
  · have hin2 := hin
    simp only [Point.In, Bool.and_eq_true, decide_eq_true_eq] at hin2
    rw [if_pos hin]
    by_cases hxy : 0 ≤ x ∧ 0 ≤ y
    · have hb : y < ((img.Rect.Max.Y + 1).toNat : Int) ∧ x ≤ img.Rect.Max.X := by omega
      rw [if_pos ⟨hxy.2, hb.1, hxy.1, hb.2, hin⟩, if_pos hxy]
    · rw [if_neg hxy, if_neg]
      rintro ⟨h1, _, h2, _⟩
      exact hxy ⟨h2, h1⟩
  · rw [if_neg hin]
    have : img.At x y = Color.zero := by
      unfold Image.At
      rw [if_neg hin]
    rw [this]
    split_ifs <;> rfl

theorem clipEmpty_dims (r1 : Rectangle) :
    0 ≤ (if r1.Empty = true then ZR else r1).Dx ∧ 0 ≤ (if r1.Empty = true then ZR else r1).Dy := by
  by_cases h : r1.Empty = true
  · rw [if_pos h]
    exact ⟨by decide, by decide⟩
  · rw [if_neg h]
    simp only [Rectangle.Empty, Bool.or_eq_true, decide_eq_true_eq, not_or, not_le] at h
    simp only [Rectangle.Dx, Rectangle.Dy]
    omega

theorem Intersect_dims (r s : Rectangle) :
    0 ≤ (r.Intersect s).Dx ∧ 0 ≤ (r.Intersect s).Dy :=
  clipEmpty_dims _

theorem clipEmpty_eq (r1 : Rectangle)
    (h : (if r1.Empty = true then ZR else r1).Empty = true) :
    (if r1.Empty = true then ZR else r1) = ZR := by
  by_cases h1 : r1.Empty = true
  · rw [if_pos h1]
  · rw [if_neg h1] at h
    exact absurd h h1

theorem Intersect_empty_eq (r s : Rectangle) (h : (r.Intersect s).Empty = true) :
    r.Intersect s = ZR :=
  clipEmpty_eq _ h

theorem SubImage_spec (p : Image) (r : Rectangle) :
    (p.SubImage r).Rect = r.Intersect p.Rect ∧
      ∀ x y : Int, (p.SubImage r).At x y =
        if (Point.mk x y).In (r.Intersect p.Rect) = true then p.pix x y else Color.zero := by
  unfold Image.SubImage
  dsimp only
  by_cases h : (r.Intersect p.Rect).Empty = true
  · simp only [h, if_true]
    refine ⟨(Intersect_empty_eq r p.Rect h).symm, ?_⟩
    intro x y
    have hz : (Point.mk x y).In ZR = false := by
      simp only [Point.In, ZR, Bool.and_eq_false_iff, decide_eq_false_iff_not]
      omega
    unfold Image.At
    dsimp only
    rw [Intersect_empty_eq r p.Rect h, hz]
    rfl
  · simp only [h, if_false]
    refine ⟨rfl, ?_⟩
    intro x y
    unfold Image.At
    rfl

theorem cropImage_spec (pic : Image) (crop a b c d : GoString)
    (hs : SplitComma crop = [a, b, c, d]) :
    ∃ out : Image, cropImage pic crop = Run.ret out ∧
      out.Rect = (Rect (Atoi a).1 (Atoi b).1 (Atoi c).1 (Atoi d).1).Intersect pic.Rect ∧
      ∀ x y : Int, out.At x y =
        if 0 ≤ x ∧ 0 ≤ y ∧ (Point.mk x y).In
            ((Rect (Atoi a).1 (Atoi b).1 (Atoi c).1 (Atoi d).1).Intersect pic.Rect) = true
        then pic.pix x y else Color.zero := by
  obtain ⟨sR, sP⟩ := SubImage_spec pic (Rect (Atoi a).1 (Atoi b).1 (Atoi c).1 (Atoi d).1)
  obtain ⟨out, h1, h2, h3⟩ := NRGBA_spec
    (pic.SubImage (Rect (Atoi a).1 (Atoi b).1 (Atoi c).1 (Atoi d).1))
    (by rw [sR]; exact (Intersect_dims _ _).1) (by rw [sR]; exact (Intersect_dims _ _).2)
  refine ⟨out, ?_, by rw [h2, sR], ?_⟩
  · unfold cropImage
    simp only [hs, List.length_cons, List.length_nil, List.map_cons, List.map_nil,
      List.getD_cons_zero, List.getD_cons_succ]
    simpa using h1
  · intro x y
    rw [h3, sP]
    by_cases hxy : 0 ≤ x ∧ 0 ≤ y
    · simp [hxy]
    · rw [if_neg hxy, if_neg]
      rintro ⟨h1, h2, _⟩
      exact hxy ⟨h1, h2⟩

/-- C4, as the code has it: `cropImage` fails exactly when the text does not
split on commas into four pieces.  With four pieces it returns an image whose
bounds are the rectangle `image.Rect` makes of the four values that `Atoi`
returns (0 for a piece that is not an integer; the corners put in order), cut
to the bounds of the picture. -/
theorem cropImage_fails_iff (pic : Image) (crop : GoString) :
    (cropImage pic crop = Run.panicked ↔ (SplitComma crop).length ≠ 4) ∧
      (∀ a b c d : GoString, SplitComma crop = [a, b, c, d] →
        ∃ out : Image, cropImage pic crop = Run.ret out ∧
          out.Rect = (Rect (Atoi a).1 (Atoi b).1 (Atoi c).1 (Atoi d).1).Intersect pic.Rect) := by
  have key : ∀ a b c d : GoString, SplitComma crop = [a, b, c, d] →
      ∃ out : Image, cropImage pic crop = Run.ret out ∧
        out.Rect = (Rect (Atoi a).1 (Atoi b).1 (Atoi c).1 (Atoi d).1).Intersect pic.Rect := by
    intro a b c d hs
    obtain ⟨out, h1, h2, _⟩ := cropImage_spec pic crop a b c d hs
    exact ⟨out, h1, h2⟩
  refine ⟨?_, key⟩
  constructor
  · intro hp hlen
    match hsp : SplitComma crop, hlen with
    | [a, b, c, d], _ =>
      obtain ⟨out, h1, _⟩ := key a b c d hsp
      rw [h1] at hp
      exact Run.noConfusion hp
  · intro hlen
    unfold cropImage
    simp [hlen]

/-- Witness for C4: the reversed rectangle `10,10,5,20` on a 200x200 picture. -/
theorem cropImage_fails_iff_witness :
    ∃ out : Image, cropImage (sampleImage 200 200) "10,10,5,20".toList = Run.ret out ∧
      out.Rect = (Rect (Atoi "10".toList).1 (Atoi "10".toList).1 (Atoi "5".toList).1
        (Atoi "20".toList).1).Intersect (sampleImage 200 200).Rect :=
  (cropImage_fails_iff (sampleImage 200 200) "10,10,5,20".toList).2
    "10".toList "10".toList "5".toList "20".toList (by decide)

/-- Counterexample to C4 as stated: `cropImage` returns an image for the
rectangle left=10, top=10, right=5, bottom=20 (the 5x10 picture with corners
(5,10) and (10,20)), and for the text `a,b,c,d`, none of whose components is an
integer (the empty picture). -/
theorem cropImage_returns_for_reversed_rect :
    (∃ out : Image, cropImage (sampleImage 200 200) "10,10,5,20".toList = Run.ret out ∧
        out.Rect = ⟨⟨5, 10⟩, ⟨10, 20⟩⟩ ∧ out.At 5 10 = (sampleImage 200 200).At 5 10) ∧
      (∃ out : Image, cropImage (sampleImage 200 200) "a,b,c,d".toList = Run.ret out ∧
        out.Rect = ZR) := by
  constructor
  · obtain ⟨out, h1, h2, h3⟩ := cropImage_spec (sampleImage 200 200) "10,10,5,20".toList
      "10".toList "10".toList "5".toList "20".toList (by decide)
    have hR : (Rect (Atoi "10".toList).1 (Atoi "10".toList).1 (Atoi "5".toList).1
        (Atoi "20".toList).1).Intersect (sampleImage 200 200).Rect = ⟨⟨5, 10⟩, ⟨10, 20⟩⟩ := by
      decide
    rw [hR] at h2 h3
    refine ⟨out, h1, h2, ?_⟩
    rw [h3]
    decide
  · obtain ⟨out, h1, h2, _⟩ := cropImage_spec (sampleImage 200 200) "a,b,c,d".toList
      "a".toList "b".toList "c".toList "d".toList (by decide)
    have hR : (Rect (Atoi "a".toList).1 (Atoi "b".toList).1 (Atoi "c".toList).1
        (Atoi "d".toList).1).Intersect (sampleImage 200 200).Rect = ZR := by
      decide
    rw [hR] at h2
    exact ⟨out, h1, h2⟩

/-- C5: on a picture with bounds `(0,0)-(W,H)`, the crop text of four decimal
integers `l,t,r,b` with `0 <= l < r <= W` and `0 <= t < b <= H` gives an image `r - l` wide and `b - t`
high, with bounds `(l,t)-(r,b)`, whose pixel at offset `(i, j)` from its top-left
corner is the pixel `(l + i, t + j)` of the picture. -/
theorem cropImage_copies_rectangle (pic : Image) (crop a b c d : GoString)
    (W H l t r bt : Int) (hrect : pic.Rect = ⟨⟨0, 0⟩, ⟨W, H⟩⟩)
    (hs : SplitComma crop = [a, b, c, d])
    (hda : isDecimalInt a l = true) (hdb : isDecimalInt b t = true)
    (hdc : isDecimalInt c r = true) (hdd : isDecimalInt d bt = true)
    (hl : 0 ≤ l) (hlr : l < r) (hr : r ≤ W) (ht : 0 ≤ t) (htb : t < bt) (hbH : bt ≤ H) :
    ∃ out : Image, cropImage pic crop = Run.ret out ∧
      out.Rect = ⟨⟨l, t⟩, ⟨r, bt⟩⟩ ∧ out.Rect.Dx = r - l ∧ out.Rect.Dy = bt - t ∧
      ∀ i j : Int, 0 ≤ i → i < r - l → 0 ≤ j → j < bt - t →
        out.At (l + i) (t + j) = pic.At (l + i) (t + j) := by
  have ha := (Atoi_eq_iff a l).mpr hda
  have hb := (Atoi_eq_iff b t).mpr hdb
  have hc := (Atoi_eq_iff c r).mpr hdc
  have hd := (Atoi_eq_iff d bt).mpr hdd
  obtain ⟨out, h1, h2, h3⟩ := cropImage_spec pic crop a b c d hs
  have hR : (Rect (Atoi a).1 (Atoi b).1 (Atoi c).1 (Atoi d).1).Intersect pic.Rect =
      ⟨⟨l, t⟩, ⟨r, bt⟩⟩ := by
    rw [ha, hb, hc, hd, hrect]
    have e1 : ¬ (l > r) := by omega
    have e2 : ¬ (t > bt) := by omega
    have e3 : ¬ (l < 0) := by omega
    have e4 : ¬ (t < 0) := by omega
    have e5 : ¬ (r > W) := by omega
    have e6 : ¬ (bt > H) := by omega
    have e7 : ¬ (l ≥ r) := by omega
    have e8 : ¬ (t ≥ bt) := by omega
    simp [Rect, Rectangle.Intersect, Rectangle.Empty, e1, e2, e3, e4, e5, e6, e7, e8]
  rw [hR] at h2 h3
  refine ⟨out, h1, h2, by rw [h2]; rfl, by rw [h2]; rfl, ?_⟩
  intro i j hi hi2 hj hj2
  rw [h3]
  have hin : (Point.mk (l + i) (t + j)).In ⟨⟨l, t⟩, ⟨r, bt⟩⟩ = true := by
    simp only [Point.In, Bool.and_eq_true, decide_eq_true_eq]
    omega
  have hin2 : (Point.mk (l + i) (t + j)).In pic.Rect = true := by
    rw [hrect]
    simp only [Point.In, Bool.and_eq_true, decide_eq_true_eq]
    omega
  rw [if_pos ⟨by omega, by omega, hin⟩]
  unfold Image.At
  rw [if_pos hin2]

/-- Witness for C5: the crop `0,0,100,100` of a 200x200 picture is 100x100 and
its first pixel is the pixel `(0,0)` of the picture. -/
theorem cropImage_copies_rectangle_witness :
    ∃ out : Image, cropImage (sampleImage 200 200) "0,0,100,100".toList = Run.ret out ∧
      out.Rect = ⟨⟨0, 0⟩, ⟨100, 100⟩⟩ ∧ out.Rect.Dx = 100 - 0 ∧ out.Rect.Dy = 100 - 0 ∧
      ∀ i j : Int, 0 ≤ i → i < 100 - 0 → 0 ≤ j → j < 100 - 0 →
        out.At (0 + i) (0 + j) = (sampleImage 200 200).At (0 + i) (0 + j) :=
  cropImage_copies_rectangle (sampleImage 200 200) "0,0,100,100".toList
    "0".toList "0".toList "100".toList "100".toList 200 200 0 0 100 100 rfl
    (by decide) (by decide) (by decide) (by decide) (by decide)
    (by decide) (by decide) (by decide) (by decide) (by decide) (by decide)

/-- C8: for a label `lw` wide and `lh` high, both at least 0, `drawCaption`
composites the label, from its point `(0,0)`, into the rectangle with corners
`(x - lw/2, y - lh/2)` and `(x + lw/2, y + lh/2)`, the division truncating; a
100x40 label at `(500, 800)` has its top-left corner at `(450, 780)`. -/
theorem drawCaption_target_rect (env : Env) (pic : Image) (caption : Caption) (lw lh : Int)
    (hlw : lw = (env.Label caption.Text caption.Size).Rect.Max.X)
    (hlh : lh = (env.Label caption.Text caption.Size).Rect.Max.Y)
    (h0 : 0 ≤ lw) (h1 : 0 ≤ lh) :
    drawCaption env pic caption =
        env.Draw pic
          ⟨⟨caption.Position.X - lw.tdiv 2, caption.Position.Y - lh.tdiv 2⟩,
            ⟨caption.Position.X + lw.tdiv 2, caption.Position.Y + lh.tdiv 2⟩⟩
          (env.Label caption.Text caption.Size) ⟨0, 0⟩ ∧
      (caption.Position = ⟨500, 800⟩ → lw = 100 → lh = 40 →
        (captionRect caption.Position lw lh).Min = ⟨450, 780⟩) := by
  constructor
  · unfold drawCaption
    dsimp only
    rw [← hlw, ← hlh]
    congr 1
    unfold captionRect Rect
    have a : 0 ≤ lw.tdiv 2 := Int.tdiv_nonneg h0 (by decide)
    have b : 0 ≤ lh.tdiv 2 := Int.tdiv_nonneg h1 (by decide)
    have e1 : ¬ (caption.Position.X - lw.tdiv 2 > caption.Position.X + lw.tdiv 2) := by omega
    have e2 : ¬ (caption.Position.Y - lh.tdiv 2 > caption.Position.Y + lh.tdiv 2) := by omega
    simp only [e1, e2, if_false]
  · intro hp hw hh
    rw [hp, hw, hh]
    decide

/-- Witness for C8: the stand-in renderer gives a 100x40 label, drawn for a
caption at `(500, 800)`. -/
theorem drawCaption_target_rect_witness :
    drawCaption fixedEnv (sampleImage 1000 1000) ⟨"H<sub>1</sub>".toList, 84, ⟨500, 800⟩⟩ =
      fixedEnv.Draw (sampleImage 1000 1000)
        ⟨⟨500 - Int.tdiv 100 2, 800 - Int.tdiv 40 2⟩, ⟨500 + Int.tdiv 100 2, 800 + Int.tdiv 40 2⟩⟩
        (fixedEnv.Label "H<sub>1</sub>".toList 84) ⟨0, 0⟩ :=
  (drawCaption_target_rect fixedEnv (sampleImage 1000 1000)
    ⟨"H<sub>1</sub>".toList, 84, ⟨500, 800⟩⟩ 100 40 rfl rfl (by decide) (by decide)).1

/-! ## DrawGrid -/

theorem drawHLines_eq (env : Env) (img : Image) (h : Int) (fuel : Nat)
    (hstep : 1 ≤ gridStep img.Rect.Max.Y h) (hfuel : img.Rect.Max.Y.toNat < fuel) :
    drawHLines env fuel img h =
      some ((gridLines img.Rect.Max.Y (gridStep img.Rect.Max.Y h)).foldl
        (fun im r => drawHLine env (gridFont env img.Rect.Max.Y img.Rect.Max.X)
          img.Rect.Max.X r im) img) := by
  unfold drawHLines
  exact forStep_gridLines _ _ _ hstep fuel hfuel img

theorem drawVLines_eq (env : Env) (height width : Int) (img : Image) (v : Int) (fuel : Nat)
    (hstep : 1 ≤ gridStep width v) (hfuel : width.toNat < fuel) :
    drawVLines env fuel height width img v =
      some ((gridLines width (gridStep width v)).foldl
        (fun im c => drawVLine env (gridFont env height width) height c im) img) := by
  unfold drawVLines
  exact forStep_gridLines _ _ _ hstep fuel hfuel img

theorem drawHLines_none (env : Env) (img : Image) (h : Int)
    (hstep : gridStep img.Rect.Max.Y h ≤ 0)
    (hlt : gridStep img.Rect.Max.Y h < img.Rect.Max.Y) (fuel : Nat) :
    drawHLines env fuel img h = none := by
  unfold drawHLines
  exact forStep_none_of_nonpos _ _ _ hstep fuel _ img hlt

theorem drawHLine_row (env : Env) (font width r : Int) (img : Image) (x : Int)
    (hx0 : 0 ≤ x) (hxw : x ≤ width)
    (hin : (Point.mk x r).In (drawHLine env font width r img).Rect = true) :
    (drawHLine env font width r img).At x r = Black := by
  unfold drawHLine at hin ⊢
  dsimp only at hin ⊢
  obtain ⟨hR, hP⟩ := foldl_Set_row (fun _ => Black) r (width + 1).toNat
    (env.Draw img (Rect 0 r (env.Label (Itoa r) font).Rect.Max.X
      (r + (env.Label (Itoa r) font).Rect.Max.Y)) (env.Label (Itoa r) font) ⟨0, 0⟩)
  unfold Image.At
  rw [if_pos hin, hP]
  rw [hR] at hin
  rw [if_pos ⟨rfl, hx0, by omega, hin⟩]

theorem drawVLine_col (env : Env) (font height c : Int) (img : Image) (y : Int)
    (hy0 : 0 ≤ y) (hyh : y ≤ height)
    (hin : (Point.mk c y).In (drawVLine env font height c img).Rect = true) :
    (drawVLine env font height c img).At c y = Black := by
  unfold drawVLine at hin ⊢
  dsimp only at hin ⊢
  obtain ⟨hR, hP⟩ := foldl_Set_col (fun _ => Black) c (height + 1).toNat
    (env.Draw img (Rect c 0 (c + (env.Label (Itoa c) font).Rect.Max.X)
      (env.Label (Itoa c) font).Rect.Max.Y) (env.Label (Itoa c) font) ⟨0, 0⟩)
  unfold Image.At
  rw [if_pos hin, hP]
  rw [hR] at hin
  rw [if_pos ⟨rfl, hy0, by omega, hin⟩]

theorem drawHLine_spec (env : Env) (font width r : Int) (im : Image) :
    (drawHLine env font width r im).Rect =
        (env.Draw im (rowLabelRect env font r) (env.Label (Itoa r) font) ⟨0, 0⟩).Rect ∧
      ∀ x y : Int, (drawHLine env font width r im).pix x y =
        if y = r ∧ 0 ≤ x ∧ x ≤ width ∧ (Point.mk x r).In
            (env.Draw im (rowLabelRect env font r) (env.Label (Itoa r) font) ⟨0, 0⟩).Rect = true
        then Black
        else (env.Draw im (rowLabelRect env font r) (env.Label (Itoa r) font) ⟨0, 0⟩).pix x y := by
  obtain ⟨hR, hP⟩ := foldl_Set_row (fun _ => Black) r (width + 1).toNat
    (env.Draw im (rowLabelRect env font r) (env.Label (Itoa r) font) ⟨0, 0⟩)
  refine ⟨hR, ?_⟩
  intro x y
  have e : (drawHLine env font width r im).pix x y =
      ((List.range (width + 1).toNat).foldl (fun (ret : Image) (w : Nat) => ret.Set w r Black)
        (env.Draw im (rowLabelRect env font r) (env.Label (Itoa r) font) ⟨0, 0⟩)).pix x y := rfl
  rw [e, hP]
  have : (0 ≤ x ∧ x < ((width + 1).toNat : Int)) ↔ (0 ≤ x ∧ x ≤ width) := by omega
  by_cases hy : y = r
  · by_cases hin : (Point.mk x r).In
        (env.Draw im (rowLabelRect env font r) (env.Label (Itoa r) font) ⟨0, 0⟩).Rect = true
    · simp only [hy, hin, true_and, and_true]
      simp only [this]
    · simp [hin]
  · simp [hy]

theorem drawVLine_spec (env : Env) (font height c : Int) (im : Image) :
    (drawVLine env font height c im).Rect =
        (env.Draw im (colLabelRect env font c) (env.Label (Itoa c) font) ⟨0, 0⟩).Rect ∧
      ∀ x y : Int, (drawVLine env font height c im).pix x y =
        if x = c ∧ 0 ≤ y ∧ y ≤ height ∧ (Point.mk c y).In
            (env.Draw im (colLabelRect env font c) (env.Label (Itoa c) font) ⟨0, 0⟩).Rect = true
        then Black
        else (env.Draw im (colLabelRect env font c) (env.Label (Itoa c) font) ⟨0, 0⟩).pix x y := by
  obtain ⟨hR, hP⟩ := foldl_Set_col (fun _ => Black) c (height + 1).toNat
    (env.Draw im (colLabelRect env font c) (env.Label (Itoa c) font) ⟨0, 0⟩)
  refine ⟨hR, ?_⟩
  intro x y
  have e : (drawVLine env font height c im).pix x y =
      ((List.range (height + 1).toNat).foldl (fun (ret : Image) (h : Nat) => ret.Set c h Black)
        (env.Draw im (colLabelRect env font c) (env.Label (Itoa c) font) ⟨0, 0⟩)).pix x y := rfl
  rw [e, hP]
  have : (0 ≤ y ∧ y < ((height + 1).toNat : Int)) ↔ (0 ≤ y ∧ y ≤ height) := by omega
  by_cases hx : x = c
  · by_cases hin : (Point.mk c y).In
        (env.Draw im (colLabelRect env font c) (env.Label (Itoa c) font) ⟨0, 0⟩).Rect = true
    · simp only [hx, hin, true_and, and_true]
      simp only [this]
    · simp [hin]
  · simp [hx]

theorem foldl_body_Rect (b : Int → Image → Image)
    (hR : ∀ (k : Int) (im : Image), (b k im).Rect = im.Rect) (L : List Int) :
    ∀ im : Image, (L.foldl (fun im k => b k im) im).Rect = im.Rect := by
  induction L with
  | nil => intro im; rfl
  | cons k ks ih =>
    intro im
    simp only [List.foldl_cons]
    rw [ih, hR]

theorem foldl_body_black (b : Int → Image → Image) (cover : Int → Bool) (x y : Int)
    (hB : ∀ (k : Int) (im : Image), cover k = false → im.pix x y = Black →
      (b k im).pix x y = Black) (L : List Int) :
    ∀ im : Image, (∀ k ∈ L, cover k = false) → im.pix x y = Black →
      (L.foldl (fun im k => b k im) im).pix x y = Black := by
  induction L with
  | nil => intro im _ h; exact h
  | cons k ks ih =>
    intro im hc h
    simp only [List.foldl_cons]
    exact ih _ (fun j hj => hc j (List.mem_cons_of_mem _ hj))
      (hB k im (hc k (by simp)) h)

theorem foldl_body_frame (b : Int → Image → Image) (cover : Int → Bool) (online : Int → Prop)
    (x y : Int)
    (hF : ∀ (k : Int) (im : Image), cover k = false → ¬ online k →
      (b k im).pix x y = im.pix x y) (L : List Int) :
    ∀ im : Image, (∀ k ∈ L, cover k = false ∧ ¬ online k) →
      (L.foldl (fun im k => b k im) im).pix x y = im.pix x y := by
  induction L with
  | nil => intro im _; rfl
  | cons k ks ih =>
    intro im hc
    simp only [List.foldl_cons]
    rw [ih _ (fun j hj => hc j (List.mem_cons_of_mem _ hj)),
      hF k im (hc k (by simp)).1 (hc k (by simp)).2]

theorem foldl_body_line (b : Int → Image → Image) (cover : Int → Bool) (x y k : Int)
    (hR : ∀ (j : Int) (im : Image), (b j im).Rect = im.Rect)
    (hB : ∀ (j : Int) (im : Image), cover j = false → im.pix x y = Black →
      (b j im).pix x y = Black)
    (hE : ∀ im : Image, (Point.mk x y).In im.Rect = true → (b k im).pix x y = Black)
    (hO : ∀ j : Int, k < j → cover j = false) (L : List Int) :
    ∀ im : Image, L.Pairwise (· < ·) → k ∈ L → (Point.mk x y).In im.Rect = true →
      (L.foldl (fun im j => b j im) im).pix x y = Black := by
  induction L with
  | nil => intro im _ hk; simp at hk
  | cons a as ih =>
    intro im hp hk hin
    simp only [List.foldl_cons]
    rw [List.pairwise_cons] at hp
    rcases List.mem_cons.mp hk with rfl | hk
    · exact foldl_body_black b cover x y hB as _ (fun j hj => hO j (hp.1 j hj)) (hE im hin)
    · exact ih _ hp.2 hk (by rw [hR]; exact hin)

theorem gridLines_pairwise (bound step : Int) (hstep : 1 ≤ step) :
    (gridLines bound step).Pairwise (· < ·) := by
  unfold gridLines
  apply List.Pairwise.map _ _ (List.pairwise_lt_range _)
  intro a b hab
  have : (a : Int) + 1 < (b : Int) + 1 := by omega
  exact Int.mul_lt_mul_of_pos_right this (by omega)


theorem rowLabelRect_above (env : Env) (hwb : env.WellBehaved) (font r x y : Int)
    (hy : y < r) : (Point.mk x y).In (rowLabelRect env font r) = false := by
  obtain ⟨_, hlh⟩ := hwb.2.2 (Itoa r) font
  unfold rowLabelRect Rect
  have e : ¬ (r > r + (env.Label (Itoa r) font).Rect.Max.Y) := by omega
  simp only [e, if_false]
  by_cases e0 : (0 : Int) > (env.Label (Itoa r) font).Rect.Max.X
  · simp only [e0, if_true, Point.In, Bool.and_eq_false_iff, decide_eq_false_iff_not]
    omega
  · simp only [e0, if_false, Point.In, Bool.and_eq_false_iff, decide_eq_false_iff_not]
    omega

theorem colLabelRect_left (env : Env) (hwb : env.WellBehaved) (font c x y : Int)
    (hx : x < c) : (Point.mk x y).In (colLabelRect env font c) = false := by
  obtain ⟨hlw, _⟩ := hwb.2.2 (Itoa c) font
  unfold colLabelRect Rect
  have e : ¬ (c > c + (env.Label (Itoa c) font).Rect.Max.X) := by omega
  simp only [e, if_false]
  by_cases e0 : (0 : Int) > (env.Label (Itoa c) font).Rect.Max.Y
  · simp only [e0, if_true, Point.In, Bool.and_eq_false_iff, decide_eq_false_iff_not]
    omega
  · simp only [e0, if_false, Point.In, Bool.and_eq_false_iff, decide_eq_false_iff_not]
    omega

theorem drawHLine_Rect (env : Env) (hwb : env.WellBehaved) (font width r : Int) (im : Image) :
    (drawHLine env font width r im).Rect = im.Rect := by
  rw [(drawHLine_spec env font width r im).1, hwb.1]

theorem drawVLine_Rect (env : Env) (hwb : env.WellBehaved) (font height c : Int) (im : Image) :
    (drawVLine env font height c im).Rect = im.Rect := by
  rw [(drawVLine_spec env font height c im).1, hwb.1]

theorem drawHLine_keeps_black (env : Env) (hwb : env.WellBehaved) (font width r : Int)
    (im : Image) (x y : Int) (hc : (Point.mk x y).In (rowLabelRect env font r) = false)
    (hb : im.pix x y = Black) : (drawHLine env font width r im).pix x y = Black := by
  rw [(drawHLine_spec env font width r im).2 x y]
  split_ifs
  · rfl
  · rw [hwb.2.1 _ _ _ _ x y hc]; exact hb

theorem drawVLine_keeps_black (env : Env) (hwb : env.WellBehaved) (font height c : Int)
    (im : Image) (x y : Int) (hc : (Point.mk x y).In (colLabelRect env font c) = false)
    (hb : im.pix x y = Black) : (drawVLine env font height c im).pix x y = Black := by
  rw [(drawVLine_spec env font height c im).2 x y]
  split_ifs
  · rfl
  · rw [hwb.2.1 _ _ _ _ x y hc]; exact hb

theorem drawHLine_frame (env : Env) (hwb : env.WellBehaved) (font width r : Int)
    (im : Image) (x y : Int) (hc : (Point.mk x y).In (rowLabelRect env font r) = false)
    (hy : ¬ y = r) : (drawHLine env font width r im).pix x y = im.pix x y := by
  rw [(drawHLine_spec env font width r im).2 x y, if_neg (fun h => hy h.1),
    hwb.2.1 _ _ _ _ x y hc]

theorem drawVLine_frame (env : Env) (hwb : env.WellBehaved) (font height c : Int)
    (im : Image) (x y : Int) (hc : (Point.mk x y).In (colLabelRect env font c) = false)
    (hx : ¬ x = c) : (drawVLine env font height c im).pix x y = im.pix x y := by
  rw [(drawVLine_spec env font height c im).2 x y, if_neg (fun h => hx h.1),
    hwb.2.1 _ _ _ _ x y hc]

theorem drawHLine_line (env : Env) (hwb : env.WellBehaved) (font width r : Int)
    (im : Image) (x : Int) (hx0 : 0 ≤ x) (hxw : x ≤ width)
    (hin : (Point.mk x r).In im.Rect = true) :
    (drawHLine env font width r im).pix x r = Black := by
  rw [(drawHLine_spec env font width r im).2 x r, if_pos ⟨rfl, hx0, hxw, by rw [hwb.1]; exact hin⟩]

theorem drawVLine_line (env : Env) (hwb : env.WellBehaved) (font height c : Int)
    (im : Image) (y : Int) (hy0 : 0 ≤ y) (hyh : y ≤ height)
    (hin : (Point.mk c y).In im.Rect = true) :
    (drawVLine env font height c im).pix c y = Black := by
  rw [(drawVLine_spec env font height c im).2 c y, if_pos ⟨rfl, hy0, hyh, by rw [hwb.1]; exact hin⟩]

theorem DrawGrid_pixels (env : Env) (hwb : env.WellBehaved) (img : Image) (h v : Int)
    (fuel : Nat) (h1 : 1 ≤ gridStep img.Rect.Max.Y h) (h2 : 1 ≤ gridStep img.Rect.Max.X v)
    (hfH : img.Rect.Max.Y.toNat < fuel) (hfW : img.Rect.Max.X.toNat < fuel) :
    ∃ out : Image, DrawGrid env fuel img h v = some out ∧ out.Rect = img.Rect ∧
      (∀ c ∈ gridLines img.Rect.Max.X (gridStep img.Rect.Max.X v), ∀ y : Int,
        0 ≤ y → y ≤ img.Rect.Max.Y → (Point.mk c y).In img.Rect = true →
        out.At c y = Black) ∧
      (∀ r ∈ gridLines img.Rect.Max.Y (gridStep img.Rect.Max.Y h), ∀ x : Int,
        0 ≤ x → x ≤ img.Rect.Max.X → (Point.mk x r).In img.Rect = true →
        (∀ c ∈ gridLines img.Rect.Max.X (gridStep img.Rect.Max.X v),
          (Point.mk x r).In
            (colLabelRect env (gridFont env img.Rect.Max.Y img.Rect.Max.X) c) = false) →
        out.At x r = Black) ∧
      (∀ x y : Int,
        (∀ r ∈ gridLines img.Rect.Max.Y (gridStep img.Rect.Max.Y h), ¬ y = r ∧
          (Point.mk x y).In
            (rowLabelRect env (gridFont env img.Rect.Max.Y img.Rect.Max.X) r) = false) →
        (∀ c ∈ gridLines img.Rect.Max.X (gridStep img.Rect.Max.X v), ¬ x = c ∧
          (Point.mk x y).In
            (colLabelRect env (gridFont env img.Rect.Max.Y img.Rect.Max.X) c) = false) →
        out.pix x y = img.pix x y) := by
  have hD : DrawGrid env fuel img h v = some
      ((gridLines img.Rect.Max.X (gridStep img.Rect.Max.X v)).foldl
        (fun im c => drawVLine env (gridFont env img.Rect.Max.Y img.Rect.Max.X)
          img.Rect.Max.Y c im)
        ((gridLines img.Rect.Max.Y (gridStep img.Rect.Max.Y h)).foldl
          (fun im r => drawHLine env (gridFont env img.Rect.Max.Y img.Rect.Max.X)
            img.Rect.Max.X r im) img)) := by
    unfold DrawGrid
    rw [drawHLines_eq env img h fuel h1 hfH]
    exact drawVLines_eq env _ _ _ v fuel h2 hfW
  have hRH := foldl_body_Rect
    (drawHLine env (gridFont env img.Rect.Max.Y img.Rect.Max.X) img.Rect.Max.X)
    (fun k im => drawHLine_Rect env hwb _ _ k im)
    (gridLines img.Rect.Max.Y (gridStep img.Rect.Max.Y h)) img
  have hRV := foldl_body_Rect
    (drawVLine env (gridFont env img.Rect.Max.Y img.Rect.Max.X) img.Rect.Max.Y)
    (fun k im => drawVLine_Rect env hwb _ _ k im)
    (gridLines img.Rect.Max.X (gridStep img.Rect.Max.X v))
    ((gridLines img.Rect.Max.Y (gridStep img.Rect.Max.Y h)).foldl
      (fun im r => drawHLine env (gridFont env img.Rect.Max.Y img.Rect.Max.X)
        img.Rect.Max.X r im) img)
  have hRout := hRV.trans hRH
  refine ⟨_, hD, hRout, ?_, ?_, ?_⟩
  · intro c hc y hy0 hyh hin
    unfold Image.At
    rw [hRout, if_pos hin]
    exact foldl_body_line _
      (fun j => (Point.mk c y).In
        (colLabelRect env (gridFont env img.Rect.Max.Y img.Rect.Max.X) j)) c y c
      (fun k im => drawVLine_Rect env hwb _ _ k im)
      (fun j im hcv hb => drawVLine_keeps_black env hwb _ _ j im c y hcv hb)
      (fun im hi => drawVLine_line env hwb _ _ c im y hy0 hyh hi)
      (fun j hj => colLabelRect_left env hwb _ j c y hj)
      _ _ (gridLines_pairwise _ _ h2) hc (by rw [hRH]; exact hin)
  · intro r hr x hx0 hxw hin hcov
    unfold Image.At
    rw [hRout, if_pos hin]
    apply foldl_body_black _
      (fun j => (Point.mk x r).In
        (colLabelRect env (gridFont env img.Rect.Max.Y img.Rect.Max.X) j)) x r
      (fun j im hcv hb => drawVLine_keeps_black env hwb _ _ j im x r hcv hb)
      _ _ hcov
    exact foldl_body_line _
      (fun j => (Point.mk x r).In
        (rowLabelRect env (gridFont env img.Rect.Max.Y img.Rect.Max.X) j)) x r r
      (fun k im => drawHLine_Rect env hwb _ _ k im)
      (fun j im hcv hb => drawHLine_keeps_black env hwb _ _ j im x r hcv hb)
      (fun im hi => drawHLine_line env hwb _ _ r im x hx0 hxw hi)
      (fun j hj => rowLabelRect_above env hwb _ j x r hj)
      _ _ (gridLines_pairwise _ _ h1) hr hin
  · intro x y hrows hcols
    rw [foldl_body_frame _
      (fun j => (Point.mk x y).In
        (colLabelRect env (gridFont env img.Rect.Max.Y img.Rect.Max.X) j))
      (fun j => x = j) x y
      (fun j im hcv ho => drawVLine_frame env hwb _ _ j im x y hcv ho) _ _
      (fun c hc => ⟨(hcols c hc).2, (hcols c hc).1⟩)]
    exact foldl_body_frame _
      (fun j => (Point.mk x y).In
        (rowLabelRect env (gridFont env img.Rect.Max.Y img.Rect.Max.X) j))
      (fun j => y = j) x y
      (fun j im hcv ho => drawHLine_frame env hwb _ _ j im x y hcv ho) _ _
      (fun r hr => ⟨(hrows r hr).2, (hrows r hr).1⟩)

theorem clipEmpty_In (p : Point) (r1 : Rectangle)
    (h : p.In (if r1.Empty = true then ZR else r1) = true) : p.In r1 = true := by
  by_cases he : r1.Empty = true
  · rw [if_pos he] at h
    have hz : p.In ZR = false := by
      simp only [Point.In, ZR, Bool.and_eq_false_iff, decide_eq_false_iff_not]
      omega
    rw [hz] at h
    exact absurd h (by decide)
  · rw [if_neg he] at h
    exact h

theorem In_Intersect_left (p : Point) (r s : Rectangle)
    (h : p.In (r.Intersect s) = true) : p.In r = true := by
  have h1 := clipEmpty_In p _ h
  simp only [Point.In, Bool.and_eq_true, decide_eq_true_eq] at h1 ⊢
  obtain ⟨⟨⟨a, b⟩, c⟩, d⟩ := h1
  refine ⟨⟨⟨?_, ?_⟩, ?_⟩, ?_⟩
  all_goals (split_ifs at a b c d <;> omega)

theorem fixedEnv_wellBehaved : fixedEnv.WellBehaved := by
  have hl : (0 : Int) ≤ (transparentImage 100 40).Rect.Max.X ∧
      (0 : Int) ≤ (transparentImage 100 40).Rect.Max.Y := ⟨by decide, by decide⟩
  refine ⟨fun _ _ _ _ => rfl, ?_, fun _ _ => hl⟩
  intro dst r src sp x y hin
  have hn : ¬ ((Point.mk x y).In (r.Intersect dst.Rect) = true) := by
    intro hc
    rw [In_Intersect_left _ _ _ hc] at hin
    exact absurd hin (by decide)
  show (if (Point.mk x y).In (r.Intersect dst.Rect) = true then _ else dst.pix x y) = dst.pix x y
  rw [if_neg hn]

theorem fixedEnv_colLabel_miss (font c x y : Int) (hy : 40 ≤ y) :
    (Point.mk x y).In (colLabelRect fixedEnv font c) = false := by
  have e : colLabelRect fixedEnv font c = Rect c 0 (c + 100) 40 := rfl
  rw [e]
  unfold Rect
  have e1 : ¬ (c > c + 100) := by omega
  have e2 : ¬ ((0 : Int) > 40) := by decide
  simp only [e1, e2, if_false, Point.In, Bool.and_eq_false_iff, decide_eq_false_iff_not]
  omega

theorem fixedEnv_rowLabel_miss (font r x y : Int) (hx : 100 ≤ x) :
    (Point.mk x y).In (rowLabelRect fixedEnv font r) = false := by
  have e : rowLabelRect fixedEnv font r = Rect 0 r 100 (r + 40) := rfl
  rw [e]
  unfold Rect
  have e1 : ¬ ((0 : Int) > 100) := by decide
  have e2 : ¬ (r > r + 40) := by omega
  simp only [e1, e2, if_false, Point.In, Bool.and_eq_false_iff, decide_eq_false_iff_not]
  omega

/-- C6: `DrawGrid` steps by `hStep = H / h` when `h > 0` and by `H - 1`
otherwise (likewise `vStep` from `W` and `v`).  Whenever `hStep >= 1` the
horizontal loop returns, having run its body at each of the rows
`hStep, 2*hStep, ...` below `H`, in that order, and nowhere else; the same holds
for the columns when `vStep >= 1`, and `DrawGrid` returns the image with the
rows drawn first and the columns second.  The body of a row composites the
label and then sets exactly the pixels of that row with `0 <= x <= W` inside
the bounds to `Black`, every other pixel being the compositor's; likewise for a
column.  With a compositor that keeps the bounds and changes nothing outside
its rectangle, the image `DrawGrid` returns has the bounds of the input, every
grid column `Black` over the whole height, every grid row `Black` wherever no
column label lies over it, and every pixel off the grid rows, columns and
labels as in the input.  For height 2400 and 16 lines the rows are the 15 rows
150, 300, ..., 2250. -/
theorem DrawGrid_line_positions (env : Env) (img : Image) (h v : Int) (fuel : Nat)
    (H W hStep vStep : Int) (hH : H = img.Rect.Max.Y) (hW : W = img.Rect.Max.X)
    (hh : hStep = if 0 < h then H.tdiv h else H - 1)
    (hv : vStep = if 0 < v then W.tdiv v else W - 1)
    (hfH : H.toNat < fuel) (hfW : W.toNat < fuel) :
    (1 ≤ hStep →
      drawHLines env fuel img h =
        some ((gridLines H hStep).foldl
          (fun im r => drawHLine env (gridFont env H W) W r im) img)) ∧
    (1 ≤ vStep → ∀ im : Image,
      drawVLines env fuel H W im v =
        some ((gridLines W vStep).foldl
          (fun im c => drawVLine env (gridFont env H W) H c im) im)) ∧
    (1 ≤ hStep → 1 ≤ vStep →
      DrawGrid env fuel img h v =
        some ((gridLines W vStep).foldl
          (fun im c => drawVLine env (gridFont env H W) H c im)
          ((gridLines H hStep).foldl
            (fun im r => drawHLine env (gridFont env H W) W r im) img))) ∧
    (1 ≤ hStep → ∀ r : Int,
      r ∈ gridLines H hStep ↔ ∃ k : Nat, 1 ≤ k ∧ r = (k : Int) * hStep ∧ r < H) ∧
    (1 ≤ vStep → ∀ c : Int,
      c ∈ gridLines W vStep ↔ ∃ k : Nat, 1 ≤ k ∧ c = (k : Int) * vStep ∧ c < W) ∧
    (∀ (r : Int) (im : Image),
      (drawHLine env (gridFont env H W) W r im).Rect =
          (env.Draw im (rowLabelRect env (gridFont env H W) r)
            (env.Label (Itoa r) (gridFont env H W)) ⟨0, 0⟩).Rect ∧
        ∀ x y : Int, (drawHLine env (gridFont env H W) W r im).pix x y =
          if y = r ∧ 0 ≤ x ∧ x ≤ W ∧ (Point.mk x r).In
              (env.Draw im (rowLabelRect env (gridFont env H W) r)
                (env.Label (Itoa r) (gridFont env H W)) ⟨0, 0⟩).Rect = true
          then Black
          else (env.Draw im (rowLabelRect env (gridFont env H W) r)
            (env.Label (Itoa r) (gridFont env H W)) ⟨0, 0⟩).pix x y) ∧
    (∀ (c : Int) (im : Image),
      (drawVLine env (gridFont env H W) H c im).Rect =
          (env.Draw im (colLabelRect env (gridFont env H W) c)
            (env.Label (Itoa c) (gridFont env H W)) ⟨0, 0⟩).Rect ∧
        ∀ x y : Int, (drawVLine env (gridFont env H W) H c im).pix x y =
          if x = c ∧ 0 ≤ y ∧ y ≤ H ∧ (Point.mk c y).In
              (env.Draw im (colLabelRect env (gridFont env H W) c)
                (env.Label (Itoa c) (gridFont env H W)) ⟨0, 0⟩).Rect = true
          then Black
          else (env.Draw im (colLabelRect env (gridFont env H W) c)
            (env.Label (Itoa c) (gridFont env H W)) ⟨0, 0⟩).pix x y) ∧
    (env.WellBehaved → 1 ≤ hStep → 1 ≤ vStep →
      ∃ out : Image, DrawGrid env fuel img h v = some out ∧ out.Rect = img.Rect ∧
        (∀ c ∈ gridLines W vStep, ∀ y : Int,
          0 ≤ y → y ≤ H → (Point.mk c y).In img.Rect = true → out.At c y = Black) ∧
        (∀ r ∈ gridLines H hStep, ∀ x : Int,
          0 ≤ x → x ≤ W → (Point.mk x r).In img.Rect = true →
          (∀ c ∈ gridLines W vStep,
            (Point.mk x r).In (colLabelRect env (gridFont env H W) c) = false) →
          out.At x r = Black) ∧
        (∀ x y : Int,
          (∀ r ∈ gridLines H hStep, ¬ y = r ∧
            (Point.mk x y).In (rowLabelRect env (gridFont env H W) r) = false) →
          (∀ c ∈ gridLines W vStep, ¬ x = c ∧
            (Point.mk x y).In (colLabelRect env (gridFont env H W) c) = false) →
          out.pix x y = img.pix x y)) ∧
    (H = 2400 → h = 16 →
      gridLines H hStep =
        [150, 300, 450, 600, 750, 900, 1050, 1200, 1350, 1500, 1650, 1800, 1950, 2100,
          2250]) := by
  have hh1 : hStep = gridStep H h := by rw [hh]; rfl
  have hv1 : vStep = gridStep W v := by rw [hv]; rfl
  subst hH hW
  subst hh1 hv1
  refine ⟨?_, ?_, ?_, ?_, ?_, ?_, ?_, ?_, ?_⟩
  · intro h1
    exact drawHLines_eq env img h fuel h1 hfH
  · intro h1 im
    exact drawVLines_eq env _ _ im v fuel h1 hfW
  · intro h1 h2
    unfold DrawGrid
    rw [drawHLines_eq env img h fuel h1 hfH]
    exact drawVLines_eq env _ _ _ v fuel h2 hfW
  · intro h1 r
    exact mem_gridLines _ _ h1 r
  · intro h1 c
    exact mem_gridLines _ _ h1 c
  · intro r im
    exact drawHLine_spec env _ _ r im
  · intro c im
    exact drawVLine_spec env _ _ c im
  · intro hwb h1 h2
    exact DrawGrid_pixels env hwb img h v fuel h1 h2 hfH hfW
  · intro e1 e2
    rw [e1, e2]
    decide

/-- Witness for C6: the 3200x2400 image with the grid (16,16) and the stand-in
collaborators: the returned image keeps the bounds, the pixel (200, 1000) of the
first grid column and the pixel (1000, 150) of the first grid row are `Black`,
and the pixel (1001, 1001), off the grid, is as in the input. -/
theorem DrawGrid_line_positions_witness :
    (∃ out : Image, DrawGrid fixedEnv 3201 (transparentImage 3200 2400) 16 16 = some out ∧
        out.Rect = (transparentImage 3200 2400).Rect ∧ out.At 200 1000 = Black ∧
        out.At 1000 150 = Black ∧
        out.pix 1001 1001 = (transparentImage 3200 2400).pix 1001 1001) ∧
      DrawGrid fixedEnv 3201 (transparentImage 3200 2400) 16 16 =
        some ((gridLines 3200 200).foldl
          (fun im c => drawVLine fixedEnv (gridFont fixedEnv 2400 3200) 2400 c im)
          ((gridLines 2400 150).foldl
            (fun im r => drawHLine fixedEnv (gridFont fixedEnv 2400 3200) 3200 r im)
            (transparentImage 3200 2400))) ∧
      gridLines 2400 150 =
        [150, 300, 450, 600, 750, 900, 1050, 1200, 1350, 1500, 1650, 1800, 1950, 2100,
          2250] := by
  have t := DrawGrid_line_positions fixedEnv (transparentImage 3200 2400) 16 16 3201
    2400 3200 150 200 rfl rfl (by decide) (by decide) (by decide) (by decide)
  obtain ⟨_, _, t3, _, _, _, _, t8, t9⟩ := t
  obtain ⟨out, hD, hR, hC, hRw, hF⟩ := t8 fixedEnv_wellBehaved (by decide) (by decide)
  refine ⟨⟨out, hD, hR, ?_, ?_, ?_⟩, t3 (by decide) (by decide), t9 rfl rfl⟩
  · exact hC 200 (by decide) 1000 (by decide) (by decide) (by decide)
  · exact hRw 150 (by decide) 1000 (by decide) (by decide) (by decide)
      (fun c _ => fixedEnv_colLabel_miss _ c 1000 150 (by decide))
  · have hrows : gridLines 2400 150 = [150, 300, 450, 600, 750, 900, 1050, 1200, 1350, 1500,
        1650, 1800, 1950, 2100, 2250] := by decide
    have hcols : gridLines 3200 200 = [200, 400, 600, 800, 1000, 1200, 1400, 1600, 1800,
        2000, 2200, 2400, 2600, 2800, 3000] := by decide
    apply hF 1001 1001
    · intro r hr
      refine ⟨?_, fixedEnv_rowLabel_miss _ r 1001 1001 (by decide)⟩
      rw [hrows] at hr
      intro e
      rw [← e] at hr
      revert hr
      decide
    · intro c hc
      refine ⟨?_, fixedEnv_colLabel_miss _ c 1001 1001 (by decide)⟩
      rw [hcols] at hc
      intro e
      rw [← e] at hc
      revert hc
      decide

/-- C7 (code and documentation disagree): on a 3200x2400 image `DrawGrid(img, 16, 16)`
draws 15 horizontal and 15 vertical lines, not 16, and `DrawGrid(img, 0, 0)`
draws one horizontal line (row 2399) and one vertical line (column 3199), not
none.  The loop bodies run 15 times and once respectively. -/
theorem DrawGrid_line_count_differs (env : Env) :
    DrawGrid env 3201 (transparentImage 3200 2400) 16 16 =
        some (([200, 400, 600, 800, 1000, 1200, 1400, 1600, 1800, 2000, 2200, 2400, 2600,
            2800, 3000] : List Int).foldl
          (fun im c => drawVLine env (gridFont env 2400 3200) 2400 c im)
          (([150, 300, 450, 600, 750, 900, 1050, 1200, 1350, 1500, 1650, 1800, 1950, 2100,
              2250] : List Int).foldl
            (fun im r => drawHLine env (gridFont env 2400 3200) 3200 r im)
            (transparentImage 3200 2400))) ∧
      forStep 2400 (gridStep 2400 16) (fun _ (n : Nat) => n + 1) 3201 (gridStep 2400 16) 0 =
        some 15 ∧
      forStep 3200 (gridStep 3200 16) (fun _ (n : Nat) => n + 1) 3201 (gridStep 3200 16) 0 =
        some 15 ∧
      DrawGrid env 3201 (transparentImage 3200 2400) 0 0 =
        some (([3199] : List Int).foldl
          (fun im c => drawVLine env (gridFont env 2400 3200) 2400 c im)
          (([2399] : List Int).foldl
            (fun im r => drawHLine env (gridFont env 2400 3200) 3200 r im)
            (transparentImage 3200 2400))) ∧
      forStep 2400 (gridStep 2400 0) (fun _ (n : Nat) => n + 1) 3201 (gridStep 2400 0) 0 =
        some 1 ∧
      ParseGrid "16,16".toList = some (16, 16) ∧ ParseGrid "0,0".toList = some (0, 0) := by
  refine ⟨?_, by decide, by decide, ?_, by decide, by decide, by decide⟩
  · have e1 : gridLines 2400 (gridStep 2400 16) = [150, 300, 450, 600, 750, 900, 1050, 1200,
        1350, 1500, 1650, 1800, 1950, 2100, 2250] := by decide
    have e2 : gridLines 3200 (gridStep 3200 16) = [200, 400, 600, 800, 1000, 1200, 1400, 1600,
        1800, 2000, 2200, 2400, 2600, 2800, 3000] := by decide
    unfold DrawGrid
    rw [drawHLines_eq env _ 16 3201 (by decide) (by decide)]
    simp only [transparentImage]
    rw [drawVLines_eq env _ _ _ 16 3201 (by decide) (by decide), e1, e2]
  · have e1 : gridLines 2400 (gridStep 2400 0) = [2399] := by decide
    have e2 : gridLines 3200 (gridStep 3200 0) = [3199] := by decide
    unfold DrawGrid
    rw [drawHLines_eq env _ 0 3201 (by decide) (by decide)]
    simp only [transparentImage]
    rw [drawVLines_eq env _ _ _ 0 3201 (by decide) (by decide), e1, e2]

/-- C10 (the loops need not finish): with more lines than rows the step
`hsize = 100 / 101` is 0, so the first loop of `DrawGrid` stays at row 0 and no
amount of fuel lets it return; the same happens on a 1x1 image with the grid
(0,0), where the step is `1 - 1 = 0`. -/
theorem DrawGrid_zero_step_never_returns (env : Env) (fuel : Nat) :
    DrawGrid env fuel (transparentImage 100 100) 101 1 = none ∧
      DrawGrid env fuel (transparentImage 1 1) 0 0 = none ∧
      gridStep 100 101 = 0 ∧ gridStep 1 0 = 0 ∧
      ParseGrid "101,1".toList = some (101, 1) := by
  refine ⟨?_, ?_, by decide, by decide, by decide⟩
  · unfold DrawGrid
    rw [drawHLines_none env _ 101 (by decide) (by decide) fuel]
  · unfold DrawGrid
    rw [drawHLines_none env _ 0 (by decide) (by decide) fuel]

end Diagram
